import Mathlib

/-
  Verification of the outline-resolution and orchestration core of the
  dlai-course-downloader repository (Python sources:
  src/dlai_downloader/core.py, src/dlai_downloader/commands.py,
  src/download_course.py, src/scripts/export_csv.py).

  The Python code is shallowly embedded: dictionaries coming from JSON are
  modelled as association lists of optional records, machine-independent
  Python integers as Int, fallible Python code (raising ValueError or
  RuntimeError) as Except-valued functions, and the external yt-dlp tool as
  an explicit outcome value / injected exit-code function, following the
  injection design described by the spec (section 9).

  Modelling notes on CPython built-ins used by the source:
  - str.strip() / str.splitlines() are modelled over the common ASCII
    whitespace and line-break characters;
  - int(str) is modelled as optional sign plus decimal digits after
    whitespace stripping (numeric-literal underscores and non-ASCII digits
    are not modelled);
  - urllib.parse.urlparse follows CPython 3.11 (removal of tab/CR/LF,
    scheme detection, netloc up to the first of "/?#", IPv6-bracket
    validation, fragment and query splits, params split for schemes in
    uses_params); the NFKC netloc check, which can only reject non-ASCII
    netlocs, is not modelled;
  - urllib.parse.quote is modelled byte-for-byte on UTF-8 with the default
    safe set (alphanumerics, "_.-~" and "/"), uppercase hex;
  - JSON record fields "type", "name", "slug" are modelled as optional
    strings, the loosely-typed "index" field as none / an integer / a
    string, matching the defaulting done by the source.
-/

namespace DlaiDownloader

/-- Decidable equality on Except values, used to evaluate the model on
concrete inputs. -/
instance {ε α : Type} [DecidableEq ε] [DecidableEq α] : DecidableEq (Except ε α) := fun x y =>
  match x, y with
  | .ok a, .ok b =>
    if h : a = b then .isTrue (by rw [h]) else .isFalse (by intro hc; cases hc; exact h rfl)
  | .error a, .error b =>
    if h : a = b then .isTrue (by rw [h]) else .isFalse (by intro hc; cases hc; exact h rfl)
  | .ok _, .error _ => .isFalse (by intro hc; cases hc)
  | .error _, .ok _ => .isFalse (by intro hc; cases hc)

/-! ## Python-style primitives -/

/-- Fixed platform host, COURSE_HOST in core.py. -/
def COURSE_HOST : String := "learn.deeplearning.ai"

/-- Python truthiness-based defaulting on optional strings:
`x or d` where a missing value and the empty string are falsy. -/
def pyOrStr : Option String → String → String
  | none, d => d
  | some s, d => if s = "" then d else s

/-- ASCII lower-casing, modelling str.lower() on the characters the
source manipulates. -/
def pyLowerStr (s : String) : String := String.mk (s.toList.map Char.toLower)

/-- Whitespace test for the Python str.strip() model. -/
def pySpace (c : Char) : Bool := c = ' ' || c = '\t' || c = '\n' || c = '\r' || c = '\x0b' || c = '\x0c'

/-- Strip a character class from both ends of a character list. -/
def stripEnds (p : Char → Bool) (l : List Char) : List Char :=
  ((l.dropWhile p).reverse.dropWhile p).reverse

/-- Python str.strip() with no argument. -/
def pyStrip (s : String) : String := String.mk (stripEnds pySpace s.toList)

/-- Decimal digit test. -/
def isDigitChar (c : Char) : Bool := '0' ≤ c && c ≤ '9'

/-- Digit-list to natural number, most significant first. -/
def digitsToNat (l : List Char) : Nat :=
  l.foldl (fun acc c => acc * 10 + (c.toNat - 48)) 0

/-- Model of Python int(s) on a string: strip whitespace, optional sign,
then a non-empty run of decimal digits; none models ValueError. -/
def pyParseInt (s : String) : Option Int :=
  let t := stripEnds pySpace s.toList
  match t with
  | [] => none
  | '+' :: ds => if ds ≠ [] && ds.all isDigitChar then some (digitsToNat ds) else none
  | '-' :: ds => if ds ≠ [] && ds.all isDigitChar then some (-(digitsToNat ds : Int)) else none
  | ds => if ds.all isDigitChar then some (digitsToNat ds) else none

/-- Loosely-typed JSON value for the "index" field of a raw lesson
record (absent/null, number, or string). -/
inductive PyVal where
  | vnone
  | vnum (n : Int)
  | vstr (s : String)
  deriving DecidableEq, Repr

/-- RawLessonRecord: the platform-native JSON object's fields of
interest, as read by the source with .get defaulting. -/
structure RawRecord where
  type : Option String
  index : PyVal
  name : Option String
  slug : Option String
  deriving DecidableEq, Repr

/-- Model of int(lesson_obj.get("index") or 0): a missing or falsy index
yields 0; a truthy string must parse as an integer or the call raises
ValueError (modelled by none). -/
def recordIndex (r : RawRecord) : Option Int :=
  match r.index with
  | .vnone => some 0
  | .vnum n => some n
  | .vstr s => if s = "" then some 0 else pyParseInt s

/-- Video test from the source: (obj.get("type") or "").lower() == "video". -/
def isVideo (r : RawRecord) : Bool := pyLowerStr (pyOrStr r.type "") = "video"

/-! ## slugify (core.py lines 47-52, download_course.py lines 34-38) -/

/-- Lower-case ASCII alphanumeric test, the complement of the character
class in re.sub(r"[^a-z0-9]+", "-", text). -/
def isLowerAlnum (c : Char) : Bool := ('a' ≤ c && c ≤ 'z') || ('0' ≤ c && c ≤ '9')

/-- One step of the run-collapsing scan: alphanumeric characters are
kept; a non-alphanumeric character emits a hyphen unless the previous
emitted character was already a hyphen. The accumulator is reversed. -/
def collapseStep (acc : List Char) (c : Char) : List Char :=
  if isLowerAlnum c then c :: acc
  else match acc with
    | a :: rest => if a = '-' then a :: rest else '-' :: a :: rest
    | [] => ['-']

/-- Replace every maximal run of non-[a-z0-9] characters by a single
hyphen, modelling the two re.sub calls in slugify (the second collapse of
hyphen runs is subsumed because a hyphen is itself non-alphanumeric). -/
def collapseRuns (l : List Char) : List Char := (l.foldl collapseStep []).reverse

/-- Model of slugify: strip and lower-case the text, collapse non-slug
runs to single hyphens, strip bounding hyphens, and fall back to
"lesson" when nothing remains. -/
def slugify (text : String) : String :=
  let t := (stripEnds pySpace text.toList).map Char.toLower
  let core := stripEnds (fun c => c = '-') (collapseRuns t)
  if core = [] then "lesson" else String.mk core

/-! ## urllib.parse.quote and the export-path title slug -/

/-- UTF-8 encoding of a single character, as a list of byte values. -/
def utf8Bytes (c : Char) : List Nat :=
  let v := c.toNat
  if v < 0x80 then [v]
  else if v < 0x800 then [0xC0 + v / 64, 0x80 + v % 64]
  else if v < 0x10000 then [0xE0 + v / 4096, 0x80 + v / 64 % 64, 0x80 + v % 64]
  else [0xF0 + v / 262144, 0x80 + v / 4096 % 64, 0x80 + v / 64 % 64, 0x80 + v % 64]

/-- Byte values left unescaped by urllib.parse.quote with its default
arguments: ASCII alphanumerics, the always-safe punctuation "_.-~", and
the default safe character "/". -/
def quoteSafeByte (b : Nat) : Bool :=
  (65 ≤ b && b ≤ 90) || (97 ≤ b && b ≤ 122) || (48 ≤ b && b ≤ 57) ||
  b = 95 || b = 46 || b = 45 || b = 126 || b = 47

/-- Upper-case hexadecimal digit of a value below 16. -/
def hexDigit (n : Nat) : Char :=
  if n < 10 then Char.ofNat (48 + n) else Char.ofNat (55 + n)

/-- Percent-encoding of one byte value. -/
def quoteByte (b : Nat) : List Char :=
  if quoteSafeByte b then [Char.ofNat b]
  else ['%', hexDigit (b / 16), hexDigit (b % 16)]

/-- Model of urllib.parse.quote(s) with the default safe set. -/
def pyQuote (s : String) : String :=
  String.mk ((s.toList.map (fun c => (utf8Bytes c).map quoteByte)).flatten.flatten)

/-- Character-wise model of str.replace for a single-character pattern. -/
def pyReplaceChar (a b : Char) (s : String) : String :=
  String.mk (s.toList.map (fun c => if c = a then b else c))

/-- Title slug of the export-path URL builder (core.py line 327,
export_csv.py line 85): quote(name.lower().replace(" ", "-").replace("/", "-")). -/
def exportNameSlug (name : String) : String :=
  pyQuote (pyReplaceChar '/' '-' (pyReplaceChar ' ' '-' (pyLowerStr name)))

/-! ## urllib.parse.urlparse (CPython 3.11) -/

/-- Scheme characters accepted after the first position. -/
def schemeChar (c : Char) : Bool :=
  ('a' ≤ c && c ≤ 'z') || ('A' ≤ c && c ≤ 'Z') || ('0' ≤ c && c ≤ '9') ||
  c = '+' || c = '-' || c = '.'

/-- ASCII alphabetic test for the first scheme character. -/
def asciiAlpha (c : Char) : Bool := ('a' ≤ c && c ≤ 'z') || ('A' ≤ c && c ≤ 'Z')

/-- Result of urlparse restricted to the components the source reads. -/
structure UrlParts where
  scheme : String
  netloc : String
  path : String
  deriving DecidableEq, Repr

/-- Netloc delimiter set of _splitnetloc. -/
def netlocDelim (c : Char) : Bool := c = '/' || c = '?' || c = '#'

/-- Schemes whose URLs carry path parameters (uses_params), as listed in
CPython with the empty scheme included. -/
def usesParams : List String :=
  ["", "ftp", "hdl", "prospero", "http", "imap", "https", "shttp", "rtsp",
   "rtspu", "sip", "sips", "mms", "sftp", "tel"]

/-- Split at the first occurrence of a character satisfying p: the part
before the match and the part starting with the match. -/
def breakAtChar (p : Char → Bool) (l : List Char) : List Char × List Char :=
  (l.takeWhile (fun c => !p c), l.dropWhile (fun c => !p c))

/-- First-character test of a scheme candidate. -/
def headAsciiAlpha : List Char → Bool
  | c :: _ => asciiAlpha c
  | [] => false

/-- Scheme detection of urlsplit: a colon at a positive position with an
ASCII-alphabetic first character and scheme characters before it. The
scheme (lower-cased) and the remainder are returned when detected. -/
def splitScheme (l : List Char) : Option (List Char × List Char) :=
  let b := breakAtChar (fun c => c = ':') l
  if b.2 = [] then none
  else if b.1 ≠ [] && b.1.all schemeChar && headAsciiAlpha b.1 then
    some (b.1.map Char.toLower, b.2.tail)
  else none

/-- Params split of urlparse: when the path contains a slash, the part
of the final segment from its first semicolon onwards is removed (the
semicolon search starts at the last slash); when it has no slash,
everything from the first semicolon is removed. -/
def splitParams (path : List Char) : List Char :=
  if path.contains ';' then
    if path.contains '/' then
      if ((path.reverse.takeWhile (fun c => c ≠ '/')).reverse).contains ';' then
        (path.reverse.dropWhile (fun c => c ≠ '/')).reverse ++
          (breakAtChar (fun c => c = ';')
            (path.reverse.takeWhile (fun c => c ≠ '/')).reverse).1
      else path
    else (breakAtChar (fun c => c = ';') path).1
  else path

/-- Characters kept by the removal of unsafe bytes (tab, CR, LF). -/
def urlKeepChar (c : Char) : Bool := !(c = '\t' || c = '\r' || c = '\n')

/-- Model of urllib.parse.urlparse for the fields the source reads.
Tab, CR and LF are removed; the scheme, netloc (with the IPv6 bracket
validation, whose failure is the error case), fragment and query are
split off; path params are split for schemes in uses_params. The NFKC
netloc check, which can only reject non-ASCII netlocs, is not modelled. -/
def pyUrlparse (url : String) : Except Unit UrlParts :=
  let l0 := url.toList.filter urlKeepChar
  let sr := match splitScheme l0 with
    | some (s, rest) => (s, rest)
    | none => ([], l0)
  let scheme := sr.1
  let nl := if sr.2.take 2 = ['/', '/'] then breakAtChar netlocDelim (sr.2.drop 2)
            else ([], sr.2)
  let netloc := nl.1
  if (netloc.contains '[' && !netloc.contains ']') ||
      (netloc.contains ']' && !netloc.contains '[') then
    .error ()
  else
    let l1 := (breakAtChar (fun c => c = '#') nl.2).1
    let l2 := (breakAtChar (fun c => c = '?') l1).1
    let path := if usesParams.contains (String.mk scheme) then splitParams l2 else l2
    .ok ⟨String.mk scheme, String.mk netloc, String.mk path⟩

/-! ## Error taxonomy of the embedded code -/

/-- Errors raised by the embedded functions: the two ValueError messages
of the URL parser, ValueError from inside urlparse, ValueError from
int(), and the RuntimeError raised on an empty outline. -/
inductive PyErr where
  | hostError
  | pathError
  | parseError
  | valueError
  | emptyOutline
  deriving DecidableEq, Repr

/-! ## URL Parser (core.py lines 75-96, export_csv.py lines 16-21) -/

/-- Model of str.split with a single-character separator. -/
def splitOnChar (sep : Char) : List Char → List (List Char)
  | [] => [[]]
  | c :: rest =>
    if c = sep then [] :: splitOnChar sep rest
    else match splitOnChar sep rest with
      | s :: ss => (c :: s) :: ss
      | [] => [[c]]

/-- Non-empty path segments, [p for p in parsed.path.split('/') if p]. -/
def pathParts (path : String) : List String :=
  ((splitOnChar '/' path.toList).map String.mk).filter (fun p => p ≠ "")

/-- Model of get_course_base_url: parse the URL, require the platform
host, require a path whose first two non-empty segments are
courses/<slug>, and return the course base URL with the slug. -/
def get_course_base_url (inputUrl : String) : Except PyErr (String × String) := do
  let parsed ← (pyUrlparse inputUrl).mapError (fun _ => PyErr.parseError)
  if parsed.netloc ≠ COURSE_HOST then .error .hostError
  else
    match pathParts parsed.path with
    | p0 :: slug :: _ =>
      if p0 = "courses" then
        .ok ("https://" ++ COURSE_HOST ++ "/courses/" ++ slug, slug)
      else .error .pathError
    | _ => .error .pathError

/-- Model of get_course_slug (identical in core.py and export_csv.py):
extract the slug from the path with no host validation. -/
def get_course_slug (url : String) : Except PyErr String := do
  let parsed ← (pyUrlparse url).mapError (fun _ => PyErr.parseError)
  match pathParts parsed.path with
  | p0 :: slug :: _ => if p0 = "courses" then .ok slug else .error .pathError
  | _ => .error .pathError

/-! ## Outline Fetcher data (core.py lines 125-157) -/

/-- Entry of a listing block's content array. -/
structure ListingItem where
  type : Option String
  key : Option String
  deriving DecidableEq, Repr

/-- Ordering block of the listing structure. -/
structure ListingBlock where
  content : List ListingItem
  deriving DecidableEq, Repr

/-- Parsed API envelope body (result.data.json): course name, the
lessons mapping in dictionary insertion order with possibly-null values,
and the listing blocks. -/
structure ApiCourse where
  name : Option String
  lessons : List (String × Option RawRecord)
  listing : List ListingBlock
  deriving DecidableEq, Repr

/-- Insertion-ordered dictionary lookup; keys of a Python dict are
unique, so theorems about lookups assume key nodup where it matters. -/
def dictGet {α : Type} (m : List (String × α)) (k : String) : Option α :=
  (m.find? (fun kv => kv.1 = k)).map (fun kv => kv.2)

/-- OrderingHint extraction (core.py lines 145-149): flatten the listing
blocks' content, keeping keys of entries whose type is exactly "lesson"
and whose key is truthy, in order. -/
def orderedKeys (listing : List ListingBlock) : List String :=
  (listing.map (fun b => b.content.filterMap (fun item =>
    if item.type = some "lesson" then
      match item.key with
      | some s => if s ≠ "" then some s else none
      | none => none
    else none))).flatten

/-! ## Outline Fetcher (core.py lines 199-254, download_course.py 77-125) -/

/-- Lesson dataclass. -/
structure Lesson where
  index : Int
  title : String
  url : String
  deriving DecidableEq, Repr

/-- Canonical viewable URL shared by both builders. -/
def lessonViewUrl (courseSlug lessonSlug titleSlug : String) : String :=
  "https://" ++ COURSE_HOST ++ "/courses/" ++ courseSlug ++ "/lesson/" ++
    lessonSlug ++ "/" ++ titleSlug

/-- Model of the inline add_lesson closure (core.py lines 205-217): skip
falsy records and non-video records, parse the index (ValueError when a
truthy index does not parse), default the name and the lesson slug (to
the mapping key), and build the Lesson with the slugify title slug. -/
def add_lesson (courseSlug key : String) (obj : Option RawRecord) :
    Except PyErr (Option Lesson) :=
  match obj with
  | none => .ok none
  | some r =>
    if !isVideo r then .ok none
    else match recordIndex r with
      | none => .error .valueError
      | some idx =>
        let name := pyOrStr r.name ("Lesson " ++ toString idx)
        let lessonSlug := pyOrStr r.slug key
        .ok (some ⟨idx, name, lessonViewUrl courseSlug lessonSlug (slugify name)⟩)

/-- Hint-branch loop of the fetcher: look each ordered key up in the
lessons mapping and run add_lesson, accumulating in order. -/
def buildLessonsFromKeys (courseSlug : String) (m : List (String × Option RawRecord)) :
    List String → Except PyErr (List Lesson)
  | [] => .ok []
  | k :: ks => do
    let hd ← add_lesson courseSlug k ((dictGet m k).join)
    let tl ← buildLessonsFromKeys courseSlug m ks
    .ok (hd.toList ++ tl)

/-- Fallback-branch loop of the fetcher: run add_lesson over already
sorted mapping items. -/
def buildLessonsFromItems (courseSlug : String) :
    List (String × Option RawRecord) → Except PyErr (List Lesson)
  | [] => .ok []
  | (k, v) :: rest => do
    let hd ← add_lesson courseSlug k v
    let tl ← buildLessonsFromItems courseSlug rest
    .ok (hd.toList ++ tl)

/-- Stable insertion of an element into a sorted list: ties keep the
inserted (earlier) element first. -/
def insertLe {α : Type} (le : α → α → Bool) (x : α) : List α → List α
  | [] => [x]
  | y :: ys => if le x y then x :: y :: ys else y :: insertLe le x ys

/-- Stable ascending sort, modelling Python sorted / list.sort. -/
def isortBy {α : Type} (le : α → α → Bool) (l : List α) : List α :=
  l.foldr (insertLe le) []

/-- Sort key of the fallback branch, int((kv[1] or {}).get("index") or 0):
a null record sorts as 0. -/
def itemSortIndex (v : Option RawRecord) : Option Int :=
  match v with
  | none => some 0
  | some r => recordIndex r

/-- Decoration pass of Python sorted with a key function: compute every
sort key in order, raising ValueError (none) on the first failure. -/
def decorateBy {α : Type} (f : α → Option Int) : List α → Except PyErr (List (Int × α))
  | [] => .ok []
  | a :: rest =>
    match f a with
    | none => .error .valueError
    | some i => Except.map (fun tl => (i, a) :: tl) (decorateBy f rest)

/-- Comparison on decorated elements. -/
def keyLe {α : Type} (a b : Int × α) : Bool := a.1 ≤ b.1

/-- Model of sorted(lessons_map.items(), key=...): compute every sort
key (propagating ValueError), then sort stably by key. -/
def sortedItems (m : List (String × Option RawRecord)) :
    Except PyErr (List (String × Option RawRecord)) :=
  Except.map (fun keyed => (isortBy keyLe keyed).map (fun p => p.2))
    (decorateBy (fun kv => itemSortIndex kv.2) m)

/-- Index comparison used by lessons.sort(key=lambda l: l.index). -/
def lessonLe (a b : Lesson) : Bool := a.index ≤ b.index

/-- Lesson-building phase of the fetcher (core.py lines 219-225): hint
order when the OrderingHint is non-empty, otherwise index-sorted mapping
order. -/
def outlineBuildPhase (courseSlug : String) (api : ApiCourse) :
    Except PyErr (List Lesson) :=
  if orderedKeys api.listing ≠ [] then
    buildLessonsFromKeys courseSlug api.lessons (orderedKeys api.listing)
  else do
    let items ← sortedItems api.lessons
    buildLessonsFromItems courseSlug items

/-- Post-filter and final sort of the fetcher (core.py lines 227-228):
drop non-positive indices and sort ascending by index. -/
def outlinePostFilter (built : List Lesson) : List Lesson :=
  isortBy lessonLe (built.filter (fun l => 0 < l.index))

/-- Model of fetch_course_outline_via_api (core.py lines 199-233 and the
identical download_course.py lines 77-125), taking the parsed API
envelope as input: build lessons in hint order when the hint is
non-empty, otherwise in index-sorted mapping order; drop non-positive
indices; sort by index; raise when nothing remains. -/
def fetch_course_outline_via_api (courseSlug : String) (api : ApiCourse) :
    Except PyErr (String × List Lesson) := do
  let courseTitle := pyOrStr api.name courseSlug
  let built ← outlineBuildPhase courseSlug api
  let final := outlinePostFilter built
  if final = [] then .error .emptyOutline else .ok (courseTitle, final)

/-- Model of get_outline_for_csv (core.py lines 236-254) and of the
identical get_outline in export_csv.py lines 24-57: raw video records in
hint order, or in index-sorted mapping order; no index filter, no final
sort, no emptiness check. -/
def get_outline_for_csv (courseSlug : String) (api : ApiCourse) :
    Except PyErr (String × List RawRecord) := do
  let courseTitle := pyOrStr api.name courseSlug
  let keys := orderedKeys api.listing
  if keys ≠ [] then
    .ok (courseTitle, keys.filterMap (fun k =>
      ((dictGet api.lessons k).join).bind
        (fun r => if isVideo r then some r else none)))
  else do
    let items ← sortedItems api.lessons
    .ok (courseTitle, items.filterMap (fun kv =>
      kv.2.bind (fun r => if isVideo r then some r else none)))

/-! ## Lesson URL Builder (core.py lines 322-329, export_csv.py 79-87) -/

/-- Model of build_lesson_url: parse the index, default the name, default
the lesson slug to str(idx), and build the viewable URL with the simpler
quote-based title slug. -/
def build_lesson_url (courseSlug : String) (r : RawRecord) :
    Except PyErr (Int × String × String) :=
  match recordIndex r with
  | none => .error .valueError
  | some idx =>
    let name := pyOrStr r.name ("Lesson " ++ toString idx)
    let lessonSlug := pyOrStr r.slug (toString idx)
    .ok (idx, name, lessonViewUrl courseSlug lessonSlug (exportNameSlug name))

/-! ## Media Resolver (core.py lines 292-319, export_csv.py 60-76) -/

/-- Outcome of one yt-dlp subprocess invocation, as observed by the
caller: completion with an exit code and captured output, or expiry of
the configured timeout. -/
inductive ToolOutcome where
  | completed (exitCode : Int) (stdout stderr : String)
  | timedOut
  deriving DecidableEq, Repr

/-- Line-break characters recognised by str.splitlines. -/
def isLineBreakChar (c : Char) : Bool :=
  c = '\n' || c = '\r' || c = '\x0b' || c = '\x0c' ||
  c = '\x1c' || c = '\x1d' || c = '\x1e' || c = '\x85' || c = '\u2028' || c = '\u2029'

/-- Accumulator pass of the splitlines model; CR LF counts as one break
and a trailing break opens no empty final line. -/
def pySplitlinesAux : List Char → List Char → List (List Char)
  | [], acc => if acc = [] then [] else [acc.reverse]
  | '\r' :: '\n' :: rest, acc => acc.reverse :: pySplitlinesAux rest []
  | c :: rest, acc =>
    if isLineBreakChar c then acc.reverse :: pySplitlinesAux rest []
    else pySplitlinesAux rest (c :: acc)

/-- Model of str.splitlines(). -/
def pySplitlines (s : String) : List String :=
  (pySplitlinesAux s.toList []).map String.mk

/-- Stripped non-blank stdout lines, as computed by both resolvers. -/
def nonBlankLines (out : String) : List String :=
  ((pySplitlines out).map pyStrip).filter (fun l => l ≠ "")

/-- Model of extract_direct_url (core.py lines 292-319), as a function of
the subprocess outcome: non-zero exit raises with the stripped stderr (or
a fixed message when it is empty), an empty usable output raises, a
timeout raises, else the first non-blank line is returned. -/
def extract_direct_url (outcome : ToolOutcome) : Except String String :=
  match outcome with
  | .timedOut => .error "yt-dlp执行超时"
  | .completed code out err =>
    if code ≠ 0 then
      .error ("yt-dlp执行失败: " ++
        (if pyStrip err ≠ "" then pyStrip err else "Unknown yt-dlp error"))
    else
      match nonBlankLines out with
      | [] => .error "yt-dlp未返回任何URL"
      | l :: _ => .ok l

/-- Model of the standalone extract_direct_url (export_csv.py lines
60-76): same logic but the subprocess is run with no timeout, so only a
completed outcome exists. -/
def extract_direct_url_script (exitCode : Int) (stdout stderr : String) :
    Except String String :=
  if exitCode ≠ 0 then .error ("yt-dlp failed: " ++ pyStrip stderr)
  else
    match nonBlankLines stdout with
    | [] => .error "No URL returned by yt-dlp"
    | l :: _ => .ok l

/-- Timeout passed to subprocess.run by the packaged resolver
(core.py line 303: timeout=60). -/
def coreResolveTimeoutSeconds : Option Nat := some 60

/-- Timeout passed to subprocess.run by the standalone resolver
(export_csv.py line 69: no timeout argument). -/
def scriptResolveTimeoutSeconds : Option Nat := none

/-! ## Download Orchestrator loop (commands.py 62-81, download_course.py 186-197) -/

/-- Model of the download loop with the external tool injected as an
exit-code function: every lesson is visited in order, a non-zero exit
code increments the failure counter, and the loop never stops early.
Returns the visit list with exit codes, and the failure count. -/
def download_run (tool : Lesson → Int) : List Lesson → List (Lesson × Int) × Nat
  | [] => ([], 0)
  | l :: rest =>
    ((l, tool l) :: (download_run tool rest).1,
      (if tool l ≠ 0 then 1 else 0) + (download_run tool rest).2)

/-- Model of the process exit status after the loop: sys.exit(1) when
any failure was counted, normal exit otherwise. -/
def download_exit_status (tool : Lesson → Int) (lessons : List Lesson) : Nat :=
  if (download_run tool lessons).2 ≠ 0 then 1 else 0

/-! ## Export Orchestrator loop (commands.py 115-140, export_csv.py 100-117) -/

/-- Row of the CSV manifest (the constant execution-path column is added
at write time and carries no per-lesson information). -/
structure ExportRow where
  url : String
  title : String
  deriving DecidableEq, Repr

/-- Python format "{idx:02d}": zero-pad a decimal rendering to width two. -/
def fmt02 (i : Int) : String :=
  let s := toString i
  if s.length < 2 then "0" ++ s else s

/-- Model of the export loop body over already-sorted records, with the
resolver injected: build the viewable URL (its ValueError propagates and
aborts, matching the source where build_lesson_url sits outside the try
block), then resolve; a resolution failure skips the row and the loop
continues. Returns rows, processed count and success count. -/
def export_rows (courseSlug : String) (resolve : String → Except String String) :
    List RawRecord → Except PyErr (List ExportRow × Nat × Nat)
  | [] => .ok ([], 0, 0)
  | r :: rest => do
    let built ← build_lesson_url courseSlug r
    let row? := match resolve built.2.2 with
      | .ok direct => some (⟨direct, fmt02 built.1 ++ " - " ++ built.2.1⟩ : ExportRow)
      | .error _ => none
    let (rows, processed, succeeded) ← export_rows courseSlug resolve rest
    .ok (row?.toList ++ rows, processed + 1, succeeded + (if row?.isSome then 1 else 0))

/-- Model of sorted(lessons, key=lambda o: int(o.get("index") or 0)) at
the head of both export mains. -/
def recordSortByIndex (rs : List RawRecord) : Except PyErr (List RawRecord) :=
  Except.map (fun keyed => (isortBy keyLe keyed).map (fun p => p.2))
    (decorateBy recordIndex rs)

/-- Export Orchestrator pipeline (export_csv_main in commands.py,
main in export_csv.py): CSV outline, index sort, export loop. -/
def export_csv_main_rows (courseSlug : String) (api : ApiCourse)
    (resolve : String → Except String String) :
    Except PyErr (List ExportRow × Nat × Nat) := do
  let outline ← get_outline_for_csv courseSlug api
  let sorted ← recordSortByIndex outline.2
  export_rows courseSlug resolve sorted

/-! ## Spec-side descriptions, stated from the claims' words and
compared against the embedded code by the theorems below -/

/-- Listing-derived key order restricted to video-type records: each
ordered key resolved in the lessons mapping, keeping video records. -/
def listingVideoRecords (api : ApiCourse) : List (String × RawRecord) :=
  (orderedKeys api.listing).filterMap (fun k =>
    ((dictGet api.lessons k).join).bind
      (fun r => if isVideo r then some (k, r) else none))

/-- Video records among already-ordered mapping items. -/
def itemVideoRecords (items : List (String × Option RawRecord)) :
    List (String × RawRecord) :=
  items.filterMap (fun kv =>
    kv.2.bind (fun r => if isVideo r then some (kv.1, r) else none))

/-- Mapping items stably sorted ascending by each record's parsed index
(the fallback order of the claims), for responses whose indices parse. -/
def indexSortedItems (m : List (String × Option RawRecord)) :
    List (String × Option RawRecord) :=
  (isortBy keyLe (m.map (fun kv => ((itemSortIndex kv.2).getD 0, kv)))).map
    (fun p => p.2)

/-- Parsed index of a record with the source's defaulting, for records
whose index parses. -/
def recordIdxD (r : RawRecord) : Int := (recordIndex r).getD 0

/-- Display name of a record with the source's defaulting. -/
def recordName (r : RawRecord) : String :=
  pyOrStr r.name ("Lesson " ++ toString (recordIdxD r))

/-- Lesson built from a resolved record, as the hint branch of the
fetcher builds it. -/
def toLesson (courseSlug key : String) (r : RawRecord) : Lesson :=
  ⟨recordIdxD r, recordName r,
    lessonViewUrl courseSlug (pyOrStr r.slug key) (slugify (recordName r))⟩

/-- Viewable URL of a record as the export-path builder constructs it. -/
def recordViewUrl (courseSlug : String) (r : RawRecord) : String :=
  lessonViewUrl courseSlug (pyOrStr r.slug (toString (recordIdxD r)))
    (exportNameSlug (recordName r))

/-- Manifest row title of a record, "{idx:02d} - {name}". -/
def recordRowTitle (r : RawRecord) : String :=
  fmt02 (recordIdxD r) ++ " - " ++ recordName r

/-- Slug extraction as a function of the parsed path alone, used to
state that the export-path parser ignores the host. -/
def pathSlugOnly (path : String) : Except PyErr String :=
  match pathParts path with
  | p0 :: slug :: _ => if p0 = "courses" then .ok slug else .error .pathError
  | _ => .error .pathError

/-- Adjacency constraint of a well-formed slug: no two consecutive
hyphens. -/
def NoDoubleHyphen (a b : Char) : Prop := ¬(a = '-' ∧ b = '-')

instance (a b : Char) : Decidable (NoDoubleHyphen a b) :=
  inferInstanceAs (Decidable (¬(a = '-' ∧ b = '-')))

/-! ## Lemmas about slugify -/

theorem collapseStep_of_alnum (acc : List Char) {c : Char}
    (hc : isLowerAlnum c = true) : collapseStep acc c = c :: acc := by
  unfold collapseStep; rw [if_pos hc]

theorem collapseStep_nil {c : Char} (hc : ¬isLowerAlnum c = true) :
    collapseStep [] c = ['-'] := by
  unfold collapseStep; rw [if_neg hc]

theorem collapseStep_skip (rest : List Char) {c : Char}
    (hc : ¬isLowerAlnum c = true) :
    collapseStep ('-' :: rest) c = '-' :: rest := by
  unfold collapseStep
  rw [if_neg hc]
  change (if ('-' : Char) = '-' then '-' :: rest else '-' :: '-' :: rest) = '-' :: rest
  rw [if_pos rfl]

theorem collapseStep_push {a : Char} (rest : List Char) {c : Char}
    (hc : ¬isLowerAlnum c = true) (ha : ¬a = '-') :
    collapseStep (a :: rest) c = '-' :: a :: rest := by
  unfold collapseStep
  rw [if_neg hc]
  change (if a = '-' then a :: rest else '-' :: a :: rest) = '-' :: a :: rest
  rw [if_neg ha]

/-- Case-analysis helper: the result of one collapse step is either the
accumulator itself or a single kept character pushed on it. -/
theorem collapseStep_cases (acc : List Char) (c : Char) :
    collapseStep acc c = acc ∨
      ∃ x, ((isLowerAlnum x = true ∧ x = c) ∨ x = '-') ∧
        collapseStep acc c = x :: acc := by
  by_cases hc : isLowerAlnum c = true
  · exact Or.inr ⟨c, Or.inl ⟨hc, rfl⟩, collapseStep_of_alnum acc hc⟩
  · rcases acc with _ | ⟨a, rest⟩
    · exact Or.inr ⟨'-', Or.inr rfl, collapseStep_nil hc⟩
    · by_cases ha : a = '-'
      · subst ha; exact Or.inl (collapseStep_skip rest hc)
      · exact Or.inr ⟨'-', Or.inr rfl, collapseStep_push rest hc ha⟩

theorem foldl_collapseStep_alnum (l : List Char) :
    ∀ acc, (∀ x ∈ acc, isLowerAlnum x = true ∨ x = '-') →
      ∀ x ∈ l.foldl collapseStep acc, isLowerAlnum x = true ∨ x = '-' := by
  induction l with
  | nil => exact fun acc h x hx => h x hx
  | cons c rest ih =>
    intro acc h x hx
    refine ih (collapseStep acc c) ?_ x hx
    intro y hy
    rcases collapseStep_cases acc c with he | ⟨z, hz, he⟩
    · exact h y (he ▸ hy)
    · rw [he] at hy
      rcases List.mem_cons.mp hy with h1 | h1
      · subst h1
        rcases hz with ⟨hz, _⟩ | hz
        · exact Or.inl hz
        · exact Or.inr hz
      · exact h y h1

theorem collapseStep_chain {acc : List Char} (c : Char)
    (h : acc.Chain' NoDoubleHyphen) :
    (collapseStep acc c).Chain' NoDoubleHyphen := by
  by_cases hc : isLowerAlnum c = true
  · rw [collapseStep_of_alnum acc hc]
    refine List.chain'_cons'.mpr ⟨fun y _ => ?_, h⟩
    rintro ⟨h1, _⟩
    rw [h1] at hc
    exact absurd hc (by decide)
  · rcases acc with _ | ⟨a, rest⟩
    · rw [collapseStep_nil hc]
      exact List.chain'_singleton '-'
    · by_cases ha : a = '-'
      · subst ha; rw [collapseStep_skip rest hc]; exact h
      · rw [collapseStep_push rest hc ha]
        refine List.chain'_cons'.mpr ⟨fun y hy => ?_, h⟩
        have h3 : a = y := by simpa using hy
        rintro ⟨_, h2⟩
        exact ha (h3 ▸ h2)

theorem foldl_collapseStep_chain (l : List Char) :
    ∀ acc, acc.Chain' NoDoubleHyphen →
      (l.foldl collapseStep acc).Chain' NoDoubleHyphen := by
  induction l with
  | nil => exact fun acc h => h
  | cons c rest ih => exact fun acc h => ih _ (collapseStep_chain c h)

theorem mem_foldl_collapseStep {x : Char} (l : List Char) :
    ∀ acc, x ∈ l.foldl collapseStep acc → x ∈ acc ∨ x ∈ l ∨ x = '-' := by
  induction l with
  | nil => exact fun acc h => Or.inl h
  | cons c rest ih =>
    intro acc h
    rcases ih (collapseStep acc c) h with h1 | h1 | h1
    · rcases collapseStep_cases acc c with he | ⟨z, hz, he⟩
      · exact Or.inl (he ▸ h1)
      · rw [he] at h1
        rcases List.mem_cons.mp h1 with h2 | h2
        · subst h2
          rcases hz with ⟨_, hz⟩ | hz
          · exact Or.inr (Or.inl (hz ▸ List.mem_cons_self c rest))
          · exact Or.inr (Or.inr hz)
        · exact Or.inl h2
    · exact Or.inr (Or.inl (List.mem_cons_of_mem c h1))
    · exact Or.inr (Or.inr h1)

theorem mem_foldl_collapseStep_mono {x : Char} (l : List Char) :
    ∀ acc, x ∈ acc → x ∈ l.foldl collapseStep acc := by
  induction l with
  | nil => exact fun acc h => h
  | cons c rest ih =>
    intro acc h
    refine ih _ ?_
    rcases collapseStep_cases acc c with he | ⟨z, _, he⟩
    · rw [he]; exact h
    · rw [he]; exact List.mem_cons_of_mem z h

theorem alnum_mem_foldl_collapseStep {x : Char} (hx : isLowerAlnum x = true)
    (l : List Char) : ∀ acc, x ∈ l → x ∈ l.foldl collapseStep acc := by
  induction l with
  | nil => intro acc h; cases h
  | cons c rest ih =>
    intro acc h
    rcases List.mem_cons.mp h with h1 | h1
    · subst h1
      refine mem_foldl_collapseStep_mono rest _ ?_
      rw [collapseStep_of_alnum acc hx]
      exact List.mem_cons_self x acc
    · exact ih _ h1

theorem dropWhile_head_not {p : Char → Bool} :
    ∀ {l : List Char} {x : Char}, (l.dropWhile p).head? = some x → p x = false := by
  intro l
  induction l with
  | nil => intro x h; cases h
  | cons c t ih =>
    intro x h
    rw [List.dropWhile_cons] at h
    by_cases hc : p c = true
    · exact ih (by simpa [hc] using h)
    · have hcf : p c = false := by simpa using hc
      have : c = x := by simpa [hcf] using h
      exact this ▸ hcf

theorem mem_of_mem_dropWhile' {p : Char → Bool} :
    ∀ {l : List Char} {x : Char}, x ∈ l.dropWhile p → x ∈ l := by
  intro l
  induction l with
  | nil => intro x h; cases h
  | cons c t ih =>
    intro x h
    rw [List.dropWhile_cons] at h
    by_cases hc : p c = true
    · simp only [hc, if_true] at h
      exact List.mem_cons_of_mem c (ih h)
    · simpa [hc] using h

theorem mem_dropWhile_of_not {p : Char → Bool} :
    ∀ {l : List Char} {x : Char}, x ∈ l → p x = false → x ∈ l.dropWhile p := by
  intro l
  induction l with
  | nil => intro x h; cases h
  | cons c t ih =>
    intro x h hx
    rw [List.dropWhile_cons]
    by_cases hc : p c = true
    · simp only [hc, if_true]
      rcases List.mem_cons.mp h with h1 | h1
      · rw [h1] at hx; rw [hx] at hc; cases hc
      · exact ih h1 hx
    · simpa [hc] using h

theorem getLast?_dropWhile_of_ne_nil {p : Char → Bool} :
    ∀ {l : List Char}, l.dropWhile p ≠ [] →
      (l.dropWhile p).getLast? = l.getLast? := by
  intro l
  induction l with
  | nil => intro h; cases h rfl
  | cons c t ih =>
    intro h
    rw [List.dropWhile_cons]
    rw [List.dropWhile_cons] at h
    by_cases hc : p c = true
    · simp only [hc, if_true] at h ⊢
      have ht : t ≠ [] := by
        rintro rfl
        exact h (by simp)
      rw [ih h]
      rcases t with _ | ⟨a, t'⟩
      · cases ht rfl
      · simp
    · simp [hc]

theorem chain'_dropWhile {R : Char → Char → Prop} {p : Char → Bool} :
    ∀ {l : List Char}, l.Chain' R → (l.dropWhile p).Chain' R := by
  intro l
  induction l with
  | nil => intro h; exact h
  | cons c t ih =>
    intro h
    rw [List.dropWhile_cons]
    by_cases hc : p c = true
    · simp only [hc, if_true]
      exact ih (List.chain'_cons'.mp h).2
    · simpa [hc] using h

theorem stripEnds_head_not {p : Char → Bool} {l : List Char} {x : Char}
    (h : (stripEnds p l).head? = some x) : p x = false := by
  unfold stripEnds at h
  rw [List.head?_reverse] at h
  have hne : (l.dropWhile p).reverse.dropWhile p ≠ [] := by
    rintro he
    rw [he] at h
    cases h
  rw [getLast?_dropWhile_of_ne_nil hne, List.getLast?_reverse] at h
  exact dropWhile_head_not h

theorem stripEnds_getLast_not {p : Char → Bool} {l : List Char} {x : Char}
    (h : (stripEnds p l).getLast? = some x) : p x = false := by
  unfold stripEnds at h
  rw [List.getLast?_reverse] at h
  exact dropWhile_head_not h

theorem mem_of_mem_stripEnds {p : Char → Bool} {l : List Char} {x : Char}
    (h : x ∈ stripEnds p l) : x ∈ l := by
  unfold stripEnds at h
  rw [List.mem_reverse] at h
  have h1 := mem_of_mem_dropWhile' h
  rw [List.mem_reverse] at h1
  exact mem_of_mem_dropWhile' h1

theorem mem_stripEnds_of_not {p : Char → Bool} {l : List Char} {x : Char}
    (h : x ∈ l) (hx : p x = false) : x ∈ stripEnds p l := by
  unfold stripEnds
  rw [List.mem_reverse]
  refine mem_dropWhile_of_not ?_ hx
  rw [List.mem_reverse]
  exact mem_dropWhile_of_not h hx

theorem stripEnds_eq_nil_of_all {p : Char → Bool} {l : List Char}
    (h : ∀ x ∈ l, p x = true) : stripEnds p l = [] := by
  unfold stripEnds
  have h1 : l.dropWhile p = [] := List.dropWhile_eq_nil_iff.mpr h
  rw [h1]
  simp

theorem chain'_stripEnds {R : Char → Char → Prop} {p : Char → Bool} {l : List Char}
    (hsym : ∀ a b, R a b → R b a) (h : l.Chain' R) :
    (stripEnds p l).Chain' R := by
  unfold stripEnds
  rw [List.chain'_reverse]
  refine List.Chain'.imp (fun a b hr => hsym a b hr) ?_
  refine chain'_dropWhile ?_
  rw [List.chain'_reverse]
  exact List.Chain'.imp (fun a b hr => hsym a b hr) (chain'_dropWhile h)

theorem chain'_collapseRuns (l : List Char) :
    (collapseRuns l).Chain' NoDoubleHyphen := by
  unfold collapseRuns
  rw [List.chain'_reverse]
  refine List.Chain'.imp (fun a b hr => ?_) (foldl_collapseStep_chain l [] List.chain'_nil)
  rintro ⟨h1, h2⟩
  exact hr ⟨h2, h1⟩

theorem alnum_of_mem_collapseRuns {l : List Char} {x : Char}
    (h : x ∈ collapseRuns l) : isLowerAlnum x = true ∨ x = '-' := by
  unfold collapseRuns at h
  rw [List.mem_reverse] at h
  exact foldl_collapseStep_alnum l [] (by intro y hy; cases hy) x h

/-- C10 main content, stated over the character list of the result. -/
theorem slugify_core_shape (text : String) :
    slugify text ≠ "" ∧
    (∀ c ∈ (slugify text).toList, isLowerAlnum c = true ∨ c = '-') ∧
    (slugify text).toList.Chain' NoDoubleHyphen ∧
    (∀ c, (slugify text).toList.head? = some c → c ≠ '-') ∧
    (∀ c, (slugify text).toList.getLast? = some c → c ≠ '-') := by
  unfold slugify
  set t := (stripEnds pySpace text.toList).map Char.toLower with ht
  set core := stripEnds (fun c => c = '-') (collapseRuns t) with hcore
  by_cases hc : core = []
  · rw [if_pos hc]
    refine ⟨by decide, by decide, ?_, by decide, by decide⟩
    rw [show "lesson".toList = ['l', 'e', 's', 's', 'o', 'n'] from rfl]
    simp +decide [List.chain'_cons, NoDoubleHyphen]
  · rw [if_neg hc]
    have htoList : (String.mk core).toList = core := rfl
    refine ⟨?_, ?_, ?_, ?_, ?_⟩
    · intro he
      exact hc (by simpa using congrArg String.toList he)
    · intro c hcc
      rw [htoList] at hcc
      exact alnum_of_mem_collapseRuns (mem_of_mem_stripEnds hcc)
    · rw [htoList, hcore]
      exact chain'_stripEnds
        (fun a b hr => by rintro ⟨h1, h2⟩; exact hr ⟨h2, h1⟩)
        (chain'_collapseRuns t)
    · intro c hcc
      rw [htoList, hcore] at hcc
      have := stripEnds_head_not hcc
      simpa using this
    · intro c hcc
      rw [htoList, hcore] at hcc
      have := stripEnds_getLast_not hcc
      simpa using this

theorem mem_collapseRuns_sub {l : List Char} {x : Char}
    (h : x ∈ collapseRuns l) : x ∈ l ∨ x = '-' := by
  unfold collapseRuns at h
  rw [List.mem_reverse] at h
  rcases mem_foldl_collapseStep l [] h with h1 | h1 | h1
  · cases h1
  · exact Or.inl h1
  · exact Or.inr h1

theorem slugify_fallback {text : String}
    (h : ∀ c ∈ text.toList, ¬isLowerAlnum (Char.toLower c) = true) :
    slugify text = "lesson" := by
  unfold slugify
  have hall : ∀ x ∈ collapseRuns ((stripEnds pySpace text.toList).map Char.toLower),
      decide (x = '-') = true := by
    intro x hx
    rcases alnum_of_mem_collapseRuns hx with h1 | h1
    · rcases mem_collapseRuns_sub hx with h2 | h2
      · rcases List.mem_map.mp h2 with ⟨c, hc, hcx⟩
        exact absurd (hcx ▸ h1) (h c (mem_of_mem_stripEnds hc))
      · simp [h2]
    · simp [h1]
  rw [if_pos (stripEnds_eq_nil_of_all hall)]

/-- C10: for every input string, the title slugifier used by the Outline
Fetcher returns a non-empty string consisting only of lower-case ASCII
letters, digits and single interior hyphens (no leading or trailing
hyphen, no two adjacent hyphens), and when normalization would leave
nothing (no character of the input lower-cases into [a-z0-9]) it returns
the fixed fallback "lesson"; hence the built lesson URL never receives
an empty final path segment. -/
theorem c10_slugify_wellformed (text : String) :
    slugify text ≠ "" ∧
    (∀ c ∈ (slugify text).toList, isLowerAlnum c = true ∨ c = '-') ∧
    (slugify text).toList.Chain' NoDoubleHyphen ∧
    (∀ c, (slugify text).toList.head? = some c → c ≠ '-') ∧
    (∀ c, (slugify text).toList.getLast? = some c → c ≠ '-') ∧
    ((∀ c ∈ text.toList, ¬isLowerAlnum (Char.toLower c) = true) →
      slugify text = "lesson") := by
  obtain ⟨h1, h2, h3, h4, h5⟩ := slugify_core_shape text
  exact ⟨h1, h2, h3, h4, h5, fun h => slugify_fallback h⟩

/-- C10 witness: the theorem evaluated at concrete inputs, with the
fallback hypothesis discharged at a slug-free string. -/
theorem c10_slugify_wellformed_witness :
    slugify "!!" = "lesson" ∧ slugify " My Lesson " ≠ "" := by
  constructor
  · exact (c10_slugify_wellformed "!!").2.2.2.2.2 (by decide)
  · exact (c10_slugify_wellformed " My Lesson ").1

/-! ## C5: download-loop accounting -/

theorem download_run_visits (tool : Lesson → Int) :
    ∀ ls : List Lesson, (download_run tool ls).1.map Prod.fst = ls := by
  intro ls
  induction ls with
  | nil => rfl
  | cons l rest ih => simp [download_run, ih]

theorem download_run_failures (tool : Lesson → Int) :
    ∀ ls : List Lesson,
      (download_run tool ls).2 = (ls.filter (fun l => tool l ≠ 0)).length := by
  intro ls
  induction ls with
  | nil => rfl
  | cons l rest ih =>
    simp only [download_run, List.filter_cons, ih]
    by_cases h : tool l ≠ 0
    · simp [h, Nat.add_comm]
    · simp [h]

/-- C5: for every outline and every stubbed per-lesson exit code, the
download loop visits every lesson in order (no failure stops it), the
reported failure count equals exactly the number of lessons whose exit
code is non-zero, and the process exit status is non-zero if and only if
that number is positive. -/
theorem c5_download_accounting (lessons : List Lesson) (tool : Lesson → Int) :
    (download_run tool lessons).1.map Prod.fst = lessons ∧
    (download_run tool lessons).2 =
      (lessons.filter (fun l => tool l ≠ 0)).length ∧
    (download_exit_status tool lessons ≠ 0 ↔
      0 < (lessons.filter (fun l => tool l ≠ 0)).length) := by
  refine ⟨download_run_visits tool lessons, download_run_failures tool lessons, ?_⟩
  unfold download_exit_status
  rw [download_run_failures tool lessons]
  rcases Nat.eq_zero_or_pos (lessons.filter (fun l => tool l ≠ 0)).length with h | h
  · rw [h]
    norm_num
  · rw [if_pos (Nat.pos_iff_ne_zero.mp h)]
    exact ⟨fun _ => h, fun _ => one_ne_zero⟩

/-! ## C8: Media Resolver contract -/

/-- C8 counterexample: the claim requires every invocation of the Media
Resolver to run the external tool with a bounded timeout, but the
standalone resolver (export_csv.py line 69) passes no timeout to
subprocess.run, while only the packaged resolver (core.py line 303) is
bounded, by 60 seconds. -/
theorem c8_timeout_counterexample :
    scriptResolveTimeoutSeconds = none ∧ coreResolveTimeoutSeconds = some 60 :=
  ⟨rfl, rfl⟩

theorem extract_eval_nonzero {code : Int} {out err : String} (hc : ¬code = 0) :
    extract_direct_url (.completed code out err) =
      .error ("yt-dlp执行失败: " ++
        (if pyStrip err ≠ "" then pyStrip err else "Unknown yt-dlp error")) := by
  simp only [extract_direct_url, ne_eq, if_pos hc]

theorem extract_eval_empty {out err : String} (hnb : nonBlankLines out = []) :
    extract_direct_url (.completed 0 out err) = .error "yt-dlp未返回任何URL" := by
  simp [extract_direct_url, hnb]

theorem extract_eval_ok {out err l : String} {rest : List String}
    (hnb : nonBlankLines out = l :: rest) :
    extract_direct_url (.completed 0 out err) = .ok l := by
  simp [extract_direct_url, hnb]

theorem extract_script_eval_nonzero {code : Int} {out err : String} (hc : ¬code = 0) :
    extract_direct_url_script code out err =
      .error ("yt-dlp failed: " ++ pyStrip err) := by
  simp only [extract_direct_url_script, ne_eq, if_pos hc]

theorem extract_script_eval_empty {out err : String} (hnb : nonBlankLines out = []) :
    extract_direct_url_script 0 out err = .error "No URL returned by yt-dlp" := by
  simp [extract_direct_url_script, hnb]

theorem extract_script_eval_ok {out err l : String} {rest : List String}
    (hnb : nonBlankLines out = l :: rest) :
    extract_direct_url_script 0 out err = .ok l := by
  simp [extract_direct_url_script, hnb]

/-- C8 amended: the packaged resolver is invoked with a 60-second
timeout and returns the first non-blank stripped stdout line exactly
when the tool completes with exit code zero and such a line exists; it
fails exactly on timeout, non-zero exit (carrying the stripped stderr in
the message when it is non-empty), or blank output. The standalone
resolver has the same success/failure behaviour but runs the tool with
no timeout at all. -/
theorem c8_resolver_amended :
    (∀ o : ToolOutcome,
      (∀ u, extract_direct_url o = .ok u ↔
        ∃ code out err, o = .completed code out err ∧ code = 0 ∧
          (nonBlankLines out).head? = some u) ∧
      ((∃ e, extract_direct_url o = .error e) ↔
        o = .timedOut ∨ ∃ code out err, o = .completed code out err ∧
          (code ≠ 0 ∨ nonBlankLines out = []))) ∧
    (∀ code out err, code ≠ 0 → pyStrip err ≠ "" →
      extract_direct_url (.completed code out err) =
        .error ("yt-dlp执行失败: " ++ pyStrip err)) ∧
    (∀ code out err,
      (∀ u, extract_direct_url_script code out err = .ok u ↔
        code = 0 ∧ (nonBlankLines out).head? = some u) ∧
      ((∃ e, extract_direct_url_script code out err = .error e) ↔
        code ≠ 0 ∨ nonBlankLines out = [])) ∧
    coreResolveTimeoutSeconds = some 60 ∧ scriptResolveTimeoutSeconds = none := by
  refine ⟨?_, ?_, ?_, rfl, rfl⟩
  · intro o
    rcases o with ⟨code, out, err⟩ | _
    · by_cases hc : code = 0
      · subst hc
        rcases hnb : nonBlankLines out with _ | ⟨l, rest⟩
        · have hval := @extract_eval_empty out err hnb
          refine ⟨fun u => ⟨fun h => ?_, fun h => ?_⟩,
            fun _ => Or.inr ⟨0, out, err, rfl, Or.inr hnb⟩, fun _ => ⟨_, hval⟩⟩
          · rw [hval] at h
            exact Except.noConfusion h
          · obtain ⟨c', o', e', heq, _, hh⟩ := h
            injection heq with h1 h2 h3
            rw [← h2, hnb] at hh
            exact Option.noConfusion hh
        · have hval := @extract_eval_ok out err l rest hnb
          refine ⟨fun u => ⟨fun h => ?_, fun h => ?_⟩,
            ⟨fun h => ?_, fun h => ?_⟩⟩
          · rw [hval] at h
            injection h with h1
            exact ⟨0, out, err, rfl, rfl, by rw [hnb, List.head?_cons, h1]⟩
          · obtain ⟨c', o', e', heq, _, hh⟩ := h
            injection heq with h1 h2 h3
            rw [← h2, hnb] at hh
            injection hh with h4
            rw [hval, h4]
          · obtain ⟨e, he⟩ := h
            rw [hval] at he
            exact Except.noConfusion he
          · rcases h with h | ⟨c', o', e', heq, hbad⟩
            · exact ToolOutcome.noConfusion h
            · injection heq with h1 h2 h3
              rcases hbad with hbad | hbad
              · exact absurd h1.symm hbad
              · rw [← h2, hnb] at hbad
                exact List.noConfusion hbad
      · have hval := @extract_eval_nonzero code out err hc
        refine ⟨fun u => ⟨fun h => ?_, fun h => ?_⟩,
          fun _ => Or.inr ⟨code, out, err, rfl, Or.inl hc⟩, fun _ => ⟨_, hval⟩⟩
        · rw [hval] at h
          exact Except.noConfusion h
        · obtain ⟨c', o', e', heq, hz, _⟩ := h
          injection heq with h1 h2 h3
          exact absurd (h1.trans hz) hc
    · refine ⟨fun u => ⟨fun h => ?_, fun h => ?_⟩,
        fun _ => Or.inl rfl, fun _ => ⟨_, rfl⟩⟩
      · exact Except.noConfusion h
      · obtain ⟨c', o', e', heq, _, _⟩ := h
        exact ToolOutcome.noConfusion heq
  · intro code out err hc he
    rw [extract_eval_nonzero hc, if_pos he]
  · intro code out err
    by_cases hc : code = 0
    · subst hc
      rcases hnb : nonBlankLines out with _ | ⟨l, rest⟩
      · have hval := @extract_script_eval_empty out err hnb
        refine ⟨fun u => ⟨fun h => ?_, fun h => ?_⟩,
          fun _ => Or.inr rfl, fun _ => ⟨_, hval⟩⟩
        · rw [hval] at h
          exact Except.noConfusion h
        · exact Option.noConfusion h.2
      · have hval := @extract_script_eval_ok out err l rest hnb
        refine ⟨fun u => ⟨fun h => ?_, fun h => ?_⟩,
          ⟨fun h => ?_, fun h => ?_⟩⟩
        · rw [hval] at h
          injection h with h1
          exact ⟨rfl, by rw [List.head?_cons, h1]⟩
        · obtain ⟨_, hh⟩ := h
          injection hh with h4
          rw [hval, h4]
        · obtain ⟨e, he⟩ := h
          rw [hval] at he
          exact Except.noConfusion he
        · rcases h with h | h
          · exact absurd rfl h
          · exact List.noConfusion h
    · have hval := @extract_script_eval_nonzero code out err hc
      refine ⟨fun u => ⟨fun h => ?_, fun h => ?_⟩,
        fun _ => Or.inl hc, fun _ => ⟨_, hval⟩⟩
      · rw [hval] at h
        exact Except.noConfusion h
      · exact absurd h.1 hc

/-- C8 witness: the amended theorem applied at a failing invocation with
captured stderr, discharging the hypotheses there. -/
theorem c8_resolver_amended_witness :
    extract_direct_url (.completed 1 "" " boom ") =
      .error ("yt-dlp执行失败: " ++ pyStrip " boom ") :=
  c8_resolver_amended.2.1 1 "" " boom " (by decide) (by decide)

/-! ## Monad-plumbing helpers for the Except embedding -/

theorem except_error_bind {ε α β : Type} (e : ε) (f : α → Except ε β) :
    (Except.error e >>= f) = Except.error e := rfl

theorem except_ok_bind {ε α β : Type} (a : α) (f : α → Except ε β) :
    (Except.ok a >>= f) = f a := rfl

theorem except_bind_error {ε α β : Type} {x : Except ε α} {f : α → Except ε β}
    {e : ε} (h : (x >>= f) = .error e) :
    x = .error e ∨ ∃ a, x = .ok a ∧ f a = .error e := by
  rcases x with e' | a
  · rw [except_error_bind] at h
    injection h with h1
    exact Or.inl (by rw [h1])
  · rw [except_ok_bind] at h
    exact Or.inr ⟨a, rfl, h⟩

theorem except_bind_ok {ε α β : Type} {x : Except ε α} {f : α → Except ε β}
    {b : β} (h : (x >>= f) = .ok b) : ∃ a, x = .ok a ∧ f a = .ok b := by
  rcases x with e' | a
  · rw [except_error_bind] at h
    exact Except.noConfusion h
  · rw [except_ok_bind] at h
    exact ⟨a, rfl, h⟩

theorem except_map_error {ε α β : Type} {g : α → β} {x : Except ε α} {e : ε}
    (h : Except.map g x = .error e) : x = .error e := by
  rcases x with e' | a
  · injection h with h1
    rw [h1]
  · exact Except.noConfusion h

theorem except_map_ok {ε α β : Type} {g : α → β} {x : Except ε α} {b : β}
    (h : Except.map g x = .ok b) : ∃ a, x = .ok a ∧ g a = b := by
  rcases x with e' | a
  · exact Except.noConfusion h
  · injection h with h1
    exact ⟨a, rfl, h1⟩

/-! ## Error classification of the outline pipeline -/

theorem add_lesson_error {slug key : String} {obj : Option RawRecord} {e : PyErr}
    (h : add_lesson slug key obj = .error e) : e = .valueError := by
  rcases obj with _ | r
  · simp only [add_lesson] at h
    exact Except.noConfusion h
  · simp only [add_lesson] at h
    by_cases hv : (!isVideo r) = true
    · rw [if_pos hv] at h
      exact Except.noConfusion h
    · rw [if_neg hv] at h
      rcases hidx : recordIndex r with _ | idx
      · rw [hidx] at h
        injection h with h1
        exact h1.symm
      · rw [hidx] at h
        exact Except.noConfusion h

theorem buildLessonsFromKeys_error {slug : String}
    {m : List (String × Option RawRecord)} :
    ∀ {keys : List String} {e : PyErr},
      buildLessonsFromKeys slug m keys = .error e → e = .valueError := by
  intro keys
  induction keys with
  | nil => intro e h; exact Except.noConfusion h
  | cons k ks ih =>
    intro e h
    unfold buildLessonsFromKeys at h
    rcases except_bind_error h with h1 | ⟨hd, _, h1⟩
    · exact add_lesson_error h1
    · rcases except_bind_error h1 with h2 | ⟨tl, _, h2⟩
      · exact ih h2
      · exact Except.noConfusion h2

theorem buildLessonsFromItems_error {slug : String} :
    ∀ {items : List (String × Option RawRecord)} {e : PyErr},
      buildLessonsFromItems slug items = .error e → e = .valueError := by
  intro items
  induction items with
  | nil => intro e h; exact Except.noConfusion h
  | cons kv rest ih =>
    intro e h
    unfold buildLessonsFromItems at h
    rcases except_bind_error h with h1 | ⟨hd, _, h1⟩
    · exact add_lesson_error h1
    · rcases except_bind_error h1 with h2 | ⟨tl, _, h2⟩
      · exact ih h2
      · exact Except.noConfusion h2

theorem decorateBy_error {α : Type} {f : α → Option Int} :
    ∀ {l : List α} {e : PyErr}, decorateBy f l = .error e → e = .valueError := by
  intro l
  induction l with
  | nil => intro e h; exact Except.noConfusion h
  | cons a rest ih =>
    intro e h
    unfold decorateBy at h
    split at h
    · injection h with h1
      exact h1.symm
    · exact ih (except_map_error h)

theorem sortedItems_error {m : List (String × Option RawRecord)} {e : PyErr}
    (h : sortedItems m = .error e) : e = .valueError :=
  decorateBy_error (except_map_error h)

theorem outlineBuildPhase_error {slug : String} {api : ApiCourse} {e : PyErr}
    (h : outlineBuildPhase slug api = .error e) : e = .valueError := by
  unfold outlineBuildPhase at h
  split at h
  · exact buildLessonsFromKeys_error h
  · rcases except_bind_error h with h1 | ⟨items, _, h1⟩
    · exact sortedItems_error h1
    · exact buildLessonsFromItems_error h1

/-! ## C9: EmptyOutlineError behaviour -/

/-- C9 counterexample: on a response with no lessons at all the Lesson
fetcher raises the empty-outline error, but the CSV outline entry point
returns an empty list without error, so the claimed iff does not hold
for every outline-producing entry point. -/
theorem c9_empty_outline_counterexample :
    fetch_course_outline_via_api "c" ⟨none, [], []⟩ = .error .emptyOutline ∧
    get_outline_for_csv "c" ⟨none, [], []⟩ = .ok ("c", []) := by
  constructor
  · decide
  · decide

/-- C9 amended: fetch_course_outline_via_api fails with the
empty-outline error exactly when lesson building succeeds and the
post-filtered list is empty (and succeeds only with a non-empty list),
while the CSV outline functions never raise the empty-outline error and
simply return whatever list results (possibly empty). -/
theorem c9_empty_outline_amended (slug : String) (api : ApiCourse) :
    (fetch_course_outline_via_api slug api = .error .emptyOutline ↔
      ∃ built, outlineBuildPhase slug api = .ok built ∧
        outlinePostFilter built = []) ∧
    (∀ e, get_outline_for_csv slug api = .error e → e = .valueError) ∧
    (∀ t l, fetch_course_outline_via_api slug api = .ok (t, l) → l ≠ []) := by
  refine ⟨?_, ?_, ?_⟩
  · simp only [fetch_course_outline_via_api]
    rcases hb : outlineBuildPhase slug api with e | built
    · rw [except_error_bind]
      constructor
      · intro h
        injection h with h1
        exact absurd (outlineBuildPhase_error hb) (by rw [h1]; decide)
      · rintro ⟨b, hb2, _⟩
        exact Except.noConfusion hb2
    · rw [except_ok_bind]
      by_cases hf : outlinePostFilter built = []
      · rw [if_pos hf]
        exact ⟨fun _ => ⟨built, rfl, hf⟩, fun _ => rfl⟩
      · rw [if_neg hf]
        constructor
        · intro h
          exact Except.noConfusion h
        · rintro ⟨b, hb2, hf2⟩
          injection hb2 with h1
          rw [← h1] at hf2
          exact absurd hf2 hf
  · intro e h
    simp only [get_outline_for_csv] at h
    split at h
    · exact Except.noConfusion h
    · rcases except_bind_error h with h1 | ⟨items, _, h1⟩
      · exact sortedItems_error h1
      · exact Except.noConfusion h1
  · intro t l h
    simp only [fetch_course_outline_via_api] at h
    rcases except_bind_ok h with ⟨built, _, h1⟩
    by_cases hf : outlinePostFilter built = []
    · rw [if_pos hf] at h1
      exact Except.noConfusion h1
    · rw [if_neg hf] at h1
      injection h1 with h2
      injection h2 with h3 h4
      exact h4 ▸ hf

/-! ## Sorting lemmas -/

theorem isortBy_nil {α : Type} (le : α → α → Bool) : isortBy le [] = [] := rfl

theorem isortBy_cons {α : Type} (le : α → α → Bool) (a : α) (l : List α) :
    isortBy le (a :: l) = insertLe le a (isortBy le l) := rfl

theorem mem_insertLe {α : Type} (le : α → α → Bool) (x y : α) :
    ∀ l : List α, y ∈ insertLe le x l ↔ y = x ∨ y ∈ l := by
  intro l
  induction l with
  | nil => simp [insertLe]
  | cons a rest ih =>
    unfold insertLe
    by_cases h : le x a = true
    · rw [if_pos h]
      simp
    · rw [if_neg h]
      rw [List.mem_cons, ih, List.mem_cons]
      tauto

theorem mem_isortBy {α : Type} (le : α → α → Bool) (x : α) :
    ∀ l : List α, x ∈ isortBy le l ↔ x ∈ l := by
  intro l
  induction l with
  | nil => simp [isortBy_nil]
  | cons a rest ih =>
    rw [isortBy_cons, mem_insertLe, List.mem_cons, ih]

/-! ## C2: positive-index invariant -/

/-- C2 counterexample: a video record with a missing index (parsed as 0)
is dropped by the Lesson fetcher, but the Export Orchestrator consumes
it and produces a manifest row titled "00 - A": the export outline
applies no positive-index filter, so the invariant does not hold for the
outline consumed by the Export Orchestrator. -/
theorem c2_export_index_counterexample :
    export_csv_main_rows "c"
        ⟨none, [("k", some ⟨some "video", .vnone, some "A", none⟩)], []⟩
        (fun _ => .ok "http://m") =
      .ok ([⟨"http://m", "00 - A"⟩], 1, 1) ∧
    fetch_course_outline_via_api "c"
        ⟨none, [("k", some ⟨some "video", .vnone, some "A", none⟩)], []⟩ =
      .error .emptyOutline := by
  constructor
  · decide
  · decide

/-- C2 amended: every Lesson in a successfully fetched outline (the
outline consumed by the Download Orchestrator) has a strictly positive
index; the export outline performs no such filtering, as the
counterexample shows. -/
theorem c2_positive_index_amended (slug : String) (api : ApiCourse)
    {t : String} {l : List Lesson}
    (h : fetch_course_outline_via_api slug api = .ok (t, l)) :
    ∀ x ∈ l, 0 < x.index := by
  simp only [fetch_course_outline_via_api] at h
  rcases except_bind_ok h with ⟨built, _, h1⟩
  by_cases hf : outlinePostFilter built = []
  · rw [if_pos hf] at h1
    exact Except.noConfusion h1
  · rw [if_neg hf] at h1
    injection h1 with h2
    injection h2 with h3 h4
    intro x hx
    rw [← h4] at hx
    unfold outlinePostFilter at hx
    rw [mem_isortBy] at hx
    have := List.of_mem_filter hx
    simpa using this

/-- C2 witness: the amended theorem applied to a concrete successful
fetch. -/
theorem c2_positive_index_amended_witness :
    0 < (Lesson.mk 1 "A"
      "https://learn.deeplearning.ai/courses/c/lesson/a/a").index :=
  c2_positive_index_amended "c"
    ⟨some "T", [("a", some ⟨some "video", .vnum 1, some "A", none⟩)], []⟩
    (t := "T")
    (l := [⟨1, "A", "https://learn.deeplearning.ai/courses/c/lesson/a/a"⟩])
    (by decide)
    ⟨1, "A", "https://learn.deeplearning.ai/courses/c/lesson/a/a"⟩
    (by decide)

/-! ## C3: host validation -/

theorem except_mapError_ok {ε ε' α : Type} {x : Except ε α} {f : ε → ε'} {a : α}
    (h : x = .ok a) : x.mapError f = .ok a := by
  rw [h]
  rfl

/-- C3 counterexample: a URL on a foreign host is accepted by the
export-path URL parser, which returns its course slug instead of failing
with the host error, although the parsed host differs from the platform
host. -/
theorem c3_export_host_counterexample :
    pyUrlparse "https://evil.com/courses/x/lesson/1/a" =
      .ok ⟨"https", "evil.com", "/courses/x/lesson/1/a"⟩ ∧
    ("evil.com" : String) ≠ COURSE_HOST ∧
    get_course_slug "https://evil.com/courses/x/lesson/1/a" = .ok "x" := by
  refine ⟨by decide, by decide, by decide⟩

/-- C3 amended: the download-path parser get_course_base_url fails with
the host error exactly when the URL parses and its netloc differs from
the fixed platform host; the export-path parser get_course_slug is a
function of the parsed path alone and performs no host check, so
foreign-host URLs are not rejected on the export path. -/
theorem c3_host_check_amended (s : String) (p : UrlParts)
    (hp : pyUrlparse s = .ok p) :
    (p.netloc ≠ COURSE_HOST → get_course_base_url s = .error .hostError) ∧
    (get_course_base_url s = .error .hostError → p.netloc ≠ COURSE_HOST) ∧
    get_course_slug s = pathSlugOnly p.path := by
  have hme : (pyUrlparse s).mapError (fun _ => PyErr.parseError) = .ok p :=
    except_mapError_ok hp
  refine ⟨?_, ?_, ?_⟩
  · intro hn
    simp only [get_course_base_url, hme, except_ok_bind]
    rw [if_pos hn]
  · intro h
    simp only [get_course_base_url, hme, except_ok_bind] at h
    by_cases hn : p.netloc ≠ COURSE_HOST
    · exact hn
    · rw [if_neg hn] at h
      split at h
      · split at h
        · exact Except.noConfusion h
        · injection h with h1
          exact absurd h1 (by decide)
      · injection h with h1
        exact absurd h1 (by decide)
  · simp only [get_course_slug, hme, except_ok_bind, pathSlugOnly]

/-- C3 witness: the amended theorem applied to a foreign-host URL,
discharging the parse and host hypotheses there. -/
theorem c3_host_check_amended_witness :
    get_course_base_url "https://evil.com/courses/x" = .error .hostError :=
  (c3_host_check_amended "https://evil.com/courses/x"
    ⟨"https", "evil.com", "/courses/x"⟩ (by decide)).1 (by decide)

/-! ## C6: export-loop skip semantics -/

theorem build_lesson_url_eval {slug : String} {r : RawRecord} {i : Int}
    (hi : recordIndex r = some i) :
    build_lesson_url slug r = .ok (i, recordName r, recordViewUrl slug r) := by
  simp only [build_lesson_url, recordViewUrl, recordName, recordIdxD, hi,
    Option.getD_some]

/-- C6: over any record list whose indices parse, the export loop never
aborts, visits every record (processed count equals the list length),
skips exactly the records whose resolution fails, and produces for each
successfully resolved record exactly one row whose title is
"{index:02d} - {name}"; the success count equals the number of rows. -/
theorem c6_export_loop (slug : String) (resolve : String → Except String String)
    (rs : List RawRecord) (h : ∀ r ∈ rs, (recordIndex r).isSome = true) :
    export_rows slug resolve rs =
      .ok (rs.filterMap (fun r =>
            match resolve (recordViewUrl slug r) with
            | .ok d => some (ExportRow.mk d (recordRowTitle r))
            | .error _ => none),
          rs.length,
          (rs.filterMap (fun r =>
            match resolve (recordViewUrl slug r) with
            | .ok d => some (ExportRow.mk d (recordRowTitle r))
            | .error _ => none)).length) := by
  induction rs with
  | nil => rfl
  | cons r rest ih =>
    obtain ⟨i, hi⟩ := Option.isSome_iff_exists.mp (h r (List.mem_cons_self r rest))
    have ihh := ih (fun x hx => h x (List.mem_cons_of_mem _ hx))
    simp only [export_rows, build_lesson_url_eval hi, except_ok_bind, ihh]
    rcases hr : resolve (recordViewUrl slug r) with e | d
    · simp [List.filterMap_cons, hr]
    · simp [List.filterMap_cons, hr, recordRowTitle, recordName, recordIdxD, hi]

/-- C6 witness: five lessons with resolution stubbed to fail exactly on
lesson 3: the loop processes all five, exports four rows with the
two-digit titles, and continues past the failure. -/
theorem c6_export_loop_witness :
    export_rows "c"
      (fun u => if u = "https://learn.deeplearning.ai/courses/c/lesson/s3/c"
        then .error "resolution failed" else .ok u)
      [⟨some "video", .vnum 1, some "A", some "s1"⟩,
       ⟨some "video", .vnum 2, some "B", some "s2"⟩,
       ⟨some "video", .vnum 3, some "C", some "s3"⟩,
       ⟨some "video", .vnum 4, some "D", some "s4"⟩,
       ⟨some "video", .vnum 5, some "E", some "s5"⟩] =
    .ok ([⟨"https://learn.deeplearning.ai/courses/c/lesson/s1/a", "01 - A"⟩,
          ⟨"https://learn.deeplearning.ai/courses/c/lesson/s2/b", "02 - B"⟩,
          ⟨"https://learn.deeplearning.ai/courses/c/lesson/s4/d", "04 - D"⟩,
          ⟨"https://learn.deeplearning.ai/courses/c/lesson/s5/e", "05 - E"⟩],
         5, 4) := by
  have h := c6_export_loop "c"
    (fun u => if u = "https://learn.deeplearning.ai/courses/c/lesson/s3/c"
      then .error "resolution failed" else .ok u)
    [⟨some "video", .vnum 1, some "A", some "s1"⟩,
     ⟨some "video", .vnum 2, some "B", some "s2"⟩,
     ⟨some "video", .vnum 3, some "C", some "s3"⟩,
     ⟨some "video", .vnum 4, some "D", some "s4"⟩,
     ⟨some "video", .vnum 5, some "E", some "s5"⟩]
    (by decide)
  exact h.trans (by decide)

/-! ## C7: the two URL builders -/

/-- C7 counterexample: on a record whose slug field is absent, the
fetcher's inline builder falls back to the mapping key ("kk") for the
lesson-slug segment while the standalone builder falls back to the
stringified index ("1"): the two constructions differ in the lesson-slug
segment, not only in the title-slugification rule (the title segments
agree here, both "a"). -/
theorem c7_builder_counterexample :
    add_lesson "c" "kk" (some ⟨some "video", .vnum 1, some "A", none⟩) =
      .ok (some ⟨1, "A", "https://learn.deeplearning.ai/courses/c/lesson/kk/a"⟩) ∧
    build_lesson_url "c" ⟨some "video", .vnum 1, some "A", none⟩ =
      .ok (1, "A", "https://learn.deeplearning.ai/courses/c/lesson/1/a") := by
  constructor
  · decide
  · decide

/-- C7 amended: for every video record with a parseable index whose slug
field is present and non-empty, the inline builder of the Outline
Fetcher and the standalone export-path builder produce the same
canonical construction — identical scheme, host, course path and
lesson-slug segment — differing only in the slugification rule applied
to the final title segment (slugify versus the quote-based rule); when
the slug field is absent their lesson-slug fallbacks differ, as the
counterexample shows. -/
theorem c7_builder_agreement_amended (courseSlug key : String) (r : RawRecord)
    (s : String) (hs : r.slug = some s) (hsne : s ≠ "")
    (hv : isVideo r = true) {i : Int} (hi : recordIndex r = some i) :
    add_lesson courseSlug key (some r) =
      .ok (some ⟨i, recordName r,
        lessonViewUrl courseSlug s (slugify (recordName r))⟩) ∧
    build_lesson_url courseSlug r =
      .ok (i, recordName r,
        lessonViewUrl courseSlug s (exportNameSlug (recordName r))) := by
  have hps : ∀ d, pyOrStr r.slug d = s := by
    intro d
    rw [hs]
    simp [pyOrStr, hsne]
  constructor
  · simp [add_lesson, hv, hi, hps, recordName, recordIdxD]
  · simp [build_lesson_url, hi, hps, recordName, recordIdxD]

/-- C7 witness: the amended theorem applied to a concrete record with a
present slug, both builders yielding the same URL up to the title rule. -/
theorem c7_builder_agreement_amended_witness :
    add_lesson "c" "kk" (some ⟨some "video", .vnum 1, some "A", some "s"⟩) =
      .ok (some ⟨1, "A", "https://learn.deeplearning.ai/courses/c/lesson/s/a"⟩) ∧
    build_lesson_url "c" ⟨some "video", .vnum 1, some "A", some "s"⟩ =
      .ok (1, "A", "https://learn.deeplearning.ai/courses/c/lesson/s/a") := by
  have h := c7_builder_agreement_amended "c" "kk"
    ⟨some "video", .vnum 1, some "A", some "s"⟩ "s" rfl (by decide) (by decide)
    (i := 1) (by decide)
  constructor
  · exact h.1.trans (by decide)
  · exact h.2.trans (by decide)

/-! ## C1: outline order reconstruction -/

theorem dictGet_mem {α : Type} {m : List (String × α)} {k : String} {v : α}
    (h : dictGet m k = some v) : ∃ kv ∈ m, kv.2 = v := by
  unfold dictGet at h
  rcases hf : m.find? (fun kv => kv.1 = k) with _ | kv
  · rw [hf] at h
    exact Option.noConfusion h
  · rw [hf] at h
    injection h with h1
    exact ⟨kv, List.mem_of_find?_eq_some hf, h1⟩

theorem add_lesson_full {slug key : String} {obj : Option RawRecord}
    (hp : ∀ r, obj = some r → isVideo r = true → (recordIndex r).isSome = true) :
    add_lesson slug key obj =
      .ok (obj.bind (fun r => if isVideo r then some (toLesson slug key r) else none)) := by
  rcases obj with _ | r
  · rfl
  · by_cases hv : isVideo r = true
    · obtain ⟨i, hi⟩ := Option.isSome_iff_exists.mp (hp r rfl hv)
      simp [add_lesson, hv, hi, toLesson, recordName, recordIdxD]
    · simp [add_lesson, hv]

theorem buildLessonsFromKeys_eq {slug : String}
    {m : List (String × Option RawRecord)}
    (hp : ∀ kv ∈ m, ∀ r, kv.2 = some r → (recordIndex r).isSome = true) :
    ∀ keys : List String,
      buildLessonsFromKeys slug m keys =
        .ok (keys.filterMap (fun k =>
          ((dictGet m k).join).bind
            (fun r => if isVideo r then some (toLesson slug k r) else none))) := by
  intro keys
  induction keys with
  | nil => rfl
  | cons k ks ih =>
    have hobj : ∀ r, (dictGet m k).join = some r → isVideo r = true →
        (recordIndex r).isSome = true := by
      intro r hj _
      obtain ⟨kv, hkv, h2⟩ := dictGet_mem (Option.join_eq_some.mp hj)
      exact hp kv hkv r h2
    simp only [buildLessonsFromKeys, add_lesson_full hobj, except_ok_bind, ih,
      List.filterMap_cons]
    rcases (dictGet m k).join with _ | r
    · rfl
    · by_cases hv : isVideo r = true
      · simp [hv]
      · simp [hv]

theorem buildLessonsFromItems_eq {slug : String} :
    ∀ items : List (String × Option RawRecord),
      (∀ kv ∈ items, ∀ r, kv.2 = some r → (recordIndex r).isSome = true) →
      buildLessonsFromItems slug items =
        .ok (items.filterMap (fun kv =>
          kv.2.bind
            (fun r => if isVideo r then some (toLesson slug kv.1 r) else none))) := by
  intro items
  induction items with
  | nil => intro _; rfl
  | cons kv rest ih =>
    intro hp
    have hobj : ∀ r, kv.2 = some r → isVideo r = true →
        (recordIndex r).isSome = true :=
      fun r h2 _ => hp kv (List.mem_cons_self kv rest) r h2
    have ihh := ih (fun x hx => hp x (List.mem_cons_of_mem _ hx))
    rcases kv with ⟨k, v⟩
    simp only [buildLessonsFromItems, add_lesson_full hobj, except_ok_bind, ihh,
      List.filterMap_cons]
    rcases v with _ | r
    · rfl
    · by_cases hv : isVideo r = true
      · simp [hv]
      · simp [hv]

theorem decorateBy_ok {α : Type} {f : α → Option Int} :
    ∀ l : List α, (∀ a ∈ l, (f a).isSome = true) →
      decorateBy f l = .ok (l.map (fun a => ((f a).getD 0, a))) := by
  intro l
  induction l with
  | nil => intro _; rfl
  | cons a rest ih =>
    intro h
    obtain ⟨i, hi⟩ := Option.isSome_iff_exists.mp (h a (List.mem_cons_self a rest))
    simp only [decorateBy, hi, ih (fun x hx => h x (List.mem_cons_of_mem _ hx)),
      Except.map, List.map_cons, Option.getD_some]

theorem sortedItems_eq {m : List (String × Option RawRecord)}
    (hp : ∀ kv ∈ m, ∀ r, kv.2 = some r → (recordIndex r).isSome = true) :
    sortedItems m = .ok (indexSortedItems m) := by
  have hkeys : ∀ kv ∈ m, (itemSortIndex kv.2).isSome = true := by
    intro kv hkv
    rcases hv : kv.2 with _ | r
    · rfl
    · exact hp kv hkv r hv
  simp only [sortedItems, decorateBy_ok m hkeys, Except.map, indexSortedItems]

theorem mem_indexSortedItems {m : List (String × Option RawRecord)}
    {kv : String × Option RawRecord} (h : kv ∈ indexSortedItems m) : kv ∈ m := by
  unfold indexSortedItems at h
  rcases List.mem_map.mp h with ⟨p, hp, h2⟩
  rw [mem_isortBy] at hp
  rcases List.mem_map.mp hp with ⟨a, ha, h3⟩
  rw [← h2, ← h3]
  exact ha

theorem outlineBuildPhase_keys {slug : String} {api : ApiCourse}
    (hk : orderedKeys api.listing ≠ []) :
    outlineBuildPhase slug api =
      buildLessonsFromKeys slug api.lessons (orderedKeys api.listing) := by
  unfold outlineBuildPhase
  rw [if_pos hk]

theorem outlineBuildPhase_sorted {slug : String} {api : ApiCourse}
    (hk : ¬orderedKeys api.listing ≠ []) :
    outlineBuildPhase slug api =
      (sortedItems api.lessons >>= fun items =>
        buildLessonsFromItems slug items) := by
  unfold outlineBuildPhase
  rw [if_neg hk]

theorem fetch_assembled {slug : String} {api : ApiCourse} {built : List Lesson}
    (hb : outlineBuildPhase slug api = .ok built) :
    fetch_course_outline_via_api slug api =
      (if outlinePostFilter built = [] then .error .emptyOutline
       else .ok (pyOrStr api.name slug, outlinePostFilter built)) := by
  simp only [fetch_course_outline_via_api, hb, except_ok_bind]

/-- C1 counterexample: with a non-empty listing naming two video lessons
whose own indices run [2, 1], the claim requires the final Lesson
sequence to follow the listing order (indices [2, 1]), but the fetcher
re-sorts by index and returns the lessons with indices [1, 2]. -/
theorem c1_listing_order_counterexample :
    fetch_course_outline_via_api "c"
        ⟨some "T",
         [("k1", some ⟨some "video", .vnum 2, some "B", some "s1"⟩),
          ("k2", some ⟨some "video", .vnum 1, some "A", some "s2"⟩)],
         [⟨[⟨some "lesson", some "k1"⟩, ⟨some "lesson", some "k2"⟩]⟩]⟩ =
      .ok ("T",
        [⟨1, "A", "https://learn.deeplearning.ai/courses/c/lesson/s2/a"⟩,
         ⟨2, "B", "https://learn.deeplearning.ai/courses/c/lesson/s1/b"⟩]) ∧
    (listingVideoRecords
        ⟨some "T",
         [("k1", some ⟨some "video", .vnum 2, some "B", some "s1"⟩),
          ("k2", some ⟨some "video", .vnum 1, some "A", some "s2"⟩)],
         [⟨[⟨some "lesson", some "k1"⟩, ⟨some "lesson", some "k2"⟩]⟩]⟩).map
      (fun kr => recordIdxD kr.2) = [2, 1] := by
  constructor
  · decide
  · decide

/-- C1 amended: for every response whose record indices parse, the
outline order is as claimed only up to the fetcher's final
transformation: with a non-empty OrderingHint the CSV outline equals
exactly the listing-derived key order restricted to video records, while
the final Lesson sequence equals that listing order restricted to videos
and then post-filtered to positive indices and stably re-sorted
ascending by index; with an empty hint both are computed from the raw
records stably sorted by parsed index (missing or falsy index treated as
0), the CSV outline being its video records and the Lesson sequence its
post-filtered, re-sorted Lessons; a truthy unparseable index raises
ValueError instead of being treated as 0. -/
theorem c1_outline_order_amended (slug : String) (api : ApiCourse)
    (hp : ∀ kv ∈ api.lessons, ∀ r, kv.2 = some r →
      (recordIndex r).isSome = true) :
    (orderedKeys api.listing ≠ [] →
      fetch_course_outline_via_api slug api =
        (if outlinePostFilter ((listingVideoRecords api).map
              (fun kr => toLesson slug kr.1 kr.2)) = []
         then .error .emptyOutline
         else .ok (pyOrStr api.name slug,
           outlinePostFilter ((listingVideoRecords api).map
             (fun kr => toLesson slug kr.1 kr.2)))) ∧
      get_outline_for_csv slug api =
        .ok (pyOrStr api.name slug, (listingVideoRecords api).map
          (fun kr => kr.2))) ∧
    (orderedKeys api.listing = [] →
      fetch_course_outline_via_api slug api =
        (if outlinePostFilter ((itemVideoRecords
              (indexSortedItems api.lessons)).map
              (fun kr => toLesson slug kr.1 kr.2)) = []
         then .error .emptyOutline
         else .ok (pyOrStr api.name slug,
           outlinePostFilter ((itemVideoRecords
             (indexSortedItems api.lessons)).map
             (fun kr => toLesson slug kr.1 kr.2)))) ∧
      get_outline_for_csv slug api =
        .ok (pyOrStr api.name slug, (itemVideoRecords
          (indexSortedItems api.lessons)).map (fun kr => kr.2))) := by
  constructor
  · intro hk
    have hbuild := @buildLessonsFromKeys_eq slug api.lessons hp
      (orderedKeys api.listing)
    have hmap : (orderedKeys api.listing).filterMap (fun k =>
        ((dictGet api.lessons k).join).bind
          (fun r => if isVideo r then some (toLesson slug k r) else none)) =
        (listingVideoRecords api).map (fun kr => toLesson slug kr.1 kr.2) := by
      unfold listingVideoRecords
      rw [List.map_filterMap]
      refine List.filterMap_congr ?_
      intro k _
      rcases (dictGet api.lessons k).join with _ | r
      · rfl
      · by_cases hv : isVideo r = true
        · simp [hv]
        · simp [hv]
    constructor
    · rw [fetch_assembled (by rw [outlineBuildPhase_keys hk, hbuild, hmap])]
    · simp only [get_outline_for_csv, if_pos hk]
      unfold listingVideoRecords
      rw [List.map_filterMap]
      congr 1
      refine congrArg _ (List.filterMap_congr ?_)
      intro k _
      rcases (dictGet api.lessons k).join with _ | r
      · rfl
      · by_cases hv : isVideo r = true
        · simp [hv]
        · simp [hv]
  · intro hk
    have hk' : ¬orderedKeys api.listing ≠ [] := by simp [hk]
    have hsort := sortedItems_eq (m := api.lessons) hp
    have hitems : ∀ kv ∈ indexSortedItems api.lessons, ∀ r, kv.2 = some r →
        (recordIndex r).isSome = true :=
      fun kv hkv r h2 => hp kv (mem_indexSortedItems hkv) r h2
    have hbuild := @buildLessonsFromItems_eq slug
      (indexSortedItems api.lessons) hitems
    have hphase : outlineBuildPhase slug api =
        .ok ((indexSortedItems api.lessons).filterMap (fun kv =>
          kv.2.bind
            (fun r => if isVideo r then some (toLesson slug kv.1 r) else none))) := by
      rw [outlineBuildPhase_sorted hk', hsort, except_ok_bind, hbuild]
    have hmap : (indexSortedItems api.lessons).filterMap (fun kv =>
        kv.2.bind
          (fun r => if isVideo r then some (toLesson slug kv.1 r) else none)) =
        (itemVideoRecords (indexSortedItems api.lessons)).map
          (fun kr => toLesson slug kr.1 kr.2) := by
      unfold itemVideoRecords
      rw [List.map_filterMap]
      refine List.filterMap_congr ?_
      intro kv _
      rcases kv.2 with _ | r
      · rfl
      · by_cases hv : isVideo r = true
        · simp [hv]
        · simp [hv]
    constructor
    · rw [fetch_assembled (by rw [hphase, hmap])]
    · simp only [get_outline_for_csv, if_neg hk', hsort, except_ok_bind]
      unfold itemVideoRecords
      rw [List.map_filterMap]
      congr 1
      refine congrArg _ (List.filterMap_congr ?_)
      intro kv _
      rcases kv.2 with _ | r
      · rfl
      · by_cases hv : isVideo r = true
        · simp [hv]
        · simp [hv]

/-- C1 witness: the amended theorem instantiated on a concrete listing
response, with its branches evaluated. -/
theorem c1_outline_order_amended_witness :
    fetch_course_outline_via_api "c"
        ⟨some "T",
         [("k1", some ⟨some "video", .vnum 2, some "B", some "s1"⟩),
          ("k2", some ⟨some "video", .vnum 1, some "A", some "s2"⟩)],
         [⟨[⟨some "lesson", some "k1"⟩, ⟨some "lesson", some "k2"⟩]⟩]⟩ =
      .ok ("T",
        [⟨1, "A", "https://learn.deeplearning.ai/courses/c/lesson/s2/a"⟩,
         ⟨2, "B", "https://learn.deeplearning.ai/courses/c/lesson/s1/b"⟩]) := by
  have h := ((c1_outline_order_amended "c"
    ⟨some "T",
     [("k1", some ⟨some "video", .vnum 2, some "B", some "s1"⟩),
      ("k2", some ⟨some "video", .vnum 1, some "A", some "s2"⟩)],
     [⟨[⟨some "lesson", some "k1"⟩, ⟨some "lesson", some "k2"⟩]⟩]⟩
    (by decide)).1 (by decide)).1
  exact h.trans (by decide)

/-! ## C4: list surgery for the URL round-trip -/

theorem takeWhile_append_stop {p : Char → Bool} {b : Char} (hb : p b = false) :
    ∀ (xs ys : List Char), (xs ++ b :: ys).takeWhile p = xs.takeWhile p := by
  intro xs ys
  induction xs with
  | nil => simp [List.takeWhile_cons, hb]
  | cons c rest ih =>
    rw [List.cons_append, List.takeWhile_cons, List.takeWhile_cons]
    by_cases hc : p c = true
    · rw [if_pos hc, if_pos hc, ih]
    · rw [if_neg hc, if_neg hc]

theorem dropWhile_append_stop {p : Char → Bool} {b : Char} (hb : p b = false) :
    ∀ (xs ys : List Char), (xs ++ b :: ys).dropWhile p = xs.dropWhile p ++ b :: ys := by
  intro xs ys
  induction xs with
  | nil => simp [List.dropWhile_cons, hb]
  | cons c rest ih =>
    rw [List.cons_append, List.dropWhile_cons, List.dropWhile_cons]
    by_cases hc : p c = true
    · rw [if_pos hc, if_pos hc, ih]
    · rw [if_neg hc, if_neg hc, List.cons_append]

theorem breakAtChar_cons_hit {brk : Char → Bool} {c : Char} (h : brk c = true)
    (l : List Char) : breakAtChar brk (c :: l) = ([], c :: l) := by
  unfold breakAtChar
  rw [List.takeWhile_cons, List.dropWhile_cons]
  simp [h]

theorem breakAtChar_append_clean {brk : Char → Bool} {xs : List Char}
    (h : ∀ c ∈ xs, brk c = false) (ys : List Char) :
    breakAtChar brk (xs ++ ys) =
      (xs ++ (breakAtChar brk ys).1, (breakAtChar brk ys).2) := by
  induction xs with
  | nil => simp
  | cons c rest ih =>
    have hc : brk c = false := h c (List.mem_cons_self c rest)
    have ihh := ih (fun x hx => h x (List.mem_cons_of_mem _ hx))
    unfold breakAtChar at ihh ⊢
    rw [List.cons_append, List.takeWhile_cons, List.dropWhile_cons]
    simp only [hc, Bool.not_false, if_true, Bool.false_eq_true, if_false]
    injection ihh with h1 h2
    rw [h1, h2, List.cons_append]

theorem filter_append_clean {f : Char → Bool} {xs : List Char}
    (h : ∀ c ∈ xs, f c = true) (ys : List Char) :
    (xs ++ ys).filter f = xs ++ ys.filter f := by
  rw [List.filter_append, List.filter_eq_self.mpr h]

theorem splitOnChar_consSep {sep : Char} (l : List Char) :
    splitOnChar sep (sep :: l) = [] :: splitOnChar sep l := by
  simp [splitOnChar]

theorem splitOnChar_append {sep : Char} {xs : List Char}
    (h : ∀ c ∈ xs, ¬c = sep) (ys : List Char) :
    splitOnChar sep (xs ++ sep :: ys) = xs :: splitOnChar sep ys := by
  induction xs with
  | nil => exact splitOnChar_consSep ys
  | cons c rest ih =>
    have hc := h c (List.mem_cons_self c rest)
    have ihh := ih (fun x hx => h x (List.mem_cons_of_mem _ hx))
    rw [List.cons_append]
    simp only [splitOnChar]
    rw [if_neg hc, ihh]

/-- The params split never disturbs anything before the last slash: a
path of the form A ++ '/' :: t keeps the prefix A ++ '/' intact. -/
theorem splitParams_keeps_front (A t : List Char) :
    ∃ t', splitParams (A ++ '/' :: t) = A ++ '/' :: t' := by
  unfold splitParams
  by_cases hsemi : (A ++ '/' :: t).contains ';'
  · rw [if_pos hsemi]
    have hslash : (A ++ '/' :: t).contains '/' = true := by
      simp [List.contains_eq_any_beq]
    rw [if_pos hslash]
    have hrev : (A ++ '/' :: t).reverse = t.reverse ++ '/' :: A.reverse := by
      simp
    have hstop : (fun c => decide (c ≠ '/')) '/' = false := by decide
    have htake : (A ++ '/' :: t).reverse.takeWhile (fun c => c ≠ '/') =
        t.reverse.takeWhile (fun c => c ≠ '/') := by
      rw [hrev]
      exact takeWhile_append_stop hstop t.reverse A.reverse
    have hdrop : (A ++ '/' :: t).reverse.dropWhile (fun c => c ≠ '/') =
        t.reverse.dropWhile (fun c => c ≠ '/') ++ '/' :: A.reverse := by
      rw [hrev]
      exact dropWhile_append_stop hstop t.reverse A.reverse
    by_cases hlast : ((((A ++ '/' :: t).reverse.takeWhile
        (fun c => c ≠ '/')).reverse).contains ';') = true
    · rw [if_pos hlast]
      refine ⟨(t.reverse.dropWhile (fun c => c ≠ '/')).reverse ++
        (breakAtChar (fun c => c = ';')
          (t.reverse.takeWhile (fun c => c ≠ '/')).reverse).1, ?_⟩
      rw [htake, hdrop]
      simp
    · rw [if_neg hlast]
      exact ⟨t, rfl⟩
  · rw [if_neg hsemi]
    exact ⟨t, rfl⟩

theorem splitScheme_at (rest : List Char) :
    splitScheme ("https".toList ++ ':' :: rest) = some ("https".toList, rest) := by
  have hb : breakAtChar (fun c => c = ':') ("https".toList ++ ':' :: rest) =
      ("https".toList ++ [], ':' :: rest) := by
    rw [breakAtChar_append_clean (by decide) (':' :: rest),
        breakAtChar_cons_hit (by decide) rest]
  simp only [splitScheme, hb, List.append_nil]
  rw [if_neg (by simp), if_pos (by decide)]
  rw [show ("https".toList.map Char.toLower) = "https".toList from by decide]
  rfl

/-- Master evaluation of the urlparse model on platform URLs: for any
path tail p, the scheme resolves to https, the netloc to the platform
host, and the path to the slash-prefixed tail after unsafe-byte removal,
fragment, query and params splits. -/
theorem pyUrlparse_platform (p : List Char) :
    pyUrlparse (String.mk ("https://".toList ++
        ("learn.deeplearning.ai".toList ++ '/' :: p))) =
      .ok ⟨"https", "learn.deeplearning.ai",
        String.mk (splitParams ((breakAtChar (fun c => c = '?')
          ((breakAtChar (fun c => c = '#')
            ('/' :: p.filter urlKeepChar)).1)).1))⟩ := by
  have htl : (String.mk ("https://".toList ++
      ("learn.deeplearning.ai".toList ++ '/' :: p))).toList =
      "https://".toList ++ ("learn.deeplearning.ai".toList ++ '/' :: p) := rfl
  have hfil : ("https://".toList ++
      ("learn.deeplearning.ai".toList ++ '/' :: p)).filter urlKeepChar =
      "https://".toList ++
        ("learn.deeplearning.ai".toList ++ '/' :: p.filter urlKeepChar) := by
    rw [filter_append_clean (by decide), filter_append_clean (by decide),
      List.filter_cons_of_pos (by decide)]
  have hassoc : "https://".toList ++
      ("learn.deeplearning.ai".toList ++ '/' :: p.filter urlKeepChar) =
      "https".toList ++ ':' ::
        ('/' :: '/' :: ("learn.deeplearning.ai".toList ++
          '/' :: p.filter urlKeepChar)) := rfl
  have hscheme : splitScheme (("https://".toList ++
      ("learn.deeplearning.ai".toList ++ '/' :: p)).filter urlKeepChar) =
      some ("https".toList,
        '/' :: '/' :: ("learn.deeplearning.ai".toList ++
          '/' :: p.filter urlKeepChar)) := by
    rw [hfil, hassoc, splitScheme_at]
  have hnet : breakAtChar netlocDelim
      ("learn.deeplearning.ai".toList ++ '/' :: p.filter urlKeepChar) =
      ("learn.deeplearning.ai".toList ++ [],
        '/' :: p.filter urlKeepChar) := by
    rw [breakAtChar_append_clean (by decide),
        breakAtChar_cons_hit (by decide)]
  have hnet1 : (breakAtChar netlocDelim
      ("learn.deeplearning.ai".toList ++ '/' :: p.filter urlKeepChar)).1 =
      "learn.deeplearning.ai".toList := by
    rw [hnet, List.append_nil]
  have hnet2 : (breakAtChar netlocDelim
      ("learn.deeplearning.ai".toList ++ '/' :: p.filter urlKeepChar)).2 =
      '/' :: p.filter urlKeepChar := by
    rw [hnet]
  simp only [pyUrlparse, htl, hscheme]
  rw [show List.take 2 ('/' :: '/' :: ("learn.deeplearning.ai".toList ++
    '/' :: p.filter urlKeepChar)) = ['/', '/'] from rfl]
  rw [if_pos rfl]
  rw [show List.drop 2 ('/' :: '/' :: ("learn.deeplearning.ai".toList ++
    '/' :: p.filter urlKeepChar)) = "learn.deeplearning.ai".toList ++
    '/' :: p.filter urlKeepChar from rfl]
  rw [hnet1, hnet2]
  rw [if_neg (by decide)]
  rw [if_pos (by decide)]
  rfl

theorem get_course_slug_eval {s : String} {p : UrlParts}
    (hp : pyUrlparse s = .ok p) : get_course_slug s = pathSlugOnly p.path := by
  simp only [get_course_slug, except_mapError_ok hp, except_ok_bind, pathSlugOnly]

/-- Round trip through the urlparse model for platform lesson URLs: the
course slug survives for any lesson-slug and title-slug tails, provided
the slug itself is non-empty and free of the characters that influence
parsing. -/
theorem get_course_slug_platform (slug ls ns : String)
    (hne : slug.toList ≠ [])
    (hcl : ∀ c ∈ slug.toList,
      ¬c = '/' ∧ ¬c = '?' ∧ ¬c = '#' ∧ urlKeepChar c = true) :
    get_course_slug (lessonViewUrl slug ls ns) = .ok slug := by
  have hurl0 : lessonViewUrl slug ls ns =
      String.mk ((((((("https://".toList ++ "learn.deeplearning.ai".toList) ++
        "/courses/".toList) ++ slug.toList) ++ "/lesson/".toList) ++
        ls.toList) ++ "/".toList) ++ ns.toList) := rfl
  have hurlA : lessonViewUrl slug ls ns =
      String.mk ("https://".toList ++ ("learn.deeplearning.ai".toList ++
        ("/courses/".toList ++ (slug.toList ++ ("/lesson/".toList ++
          (ls.toList ++ ("/".toList ++ ns.toList))))))) := by
    rw [hurl0]
    exact congrArg _ (by simp)
  have hsegs : "https://".toList ++ ("learn.deeplearning.ai".toList ++
      ("/courses/".toList ++ (slug.toList ++ ("/lesson/".toList ++
        (ls.toList ++ ("/".toList ++ ns.toList)))))) =
      "https://".toList ++ ("learn.deeplearning.ai".toList ++
        '/' :: ("courses".toList ++ '/' :: (slug.toList ++
          '/' :: ("lesson".toList ++ '/' :: (ls.toList ++
            '/' :: ns.toList))))) := rfl
  have hurl : lessonViewUrl slug ls ns =
      String.mk ("https://".toList ++ ("learn.deeplearning.ai".toList ++
        '/' :: ("courses".toList ++ '/' :: (slug.toList ++
          '/' :: ("lesson".toList ++ '/' :: (ls.toList ++
            '/' :: ns.toList)))))) := hurlA.trans (congrArg String.mk hsegs)
  have hplat := pyUrlparse_platform ("courses".toList ++ '/' :: (slug.toList ++
    '/' :: ("lesson".toList ++ '/' :: (ls.toList ++ '/' :: ns.toList))))
  rw [hurl, get_course_slug_eval hplat]
  have hslugkeep : ∀ c ∈ slug.toList, urlKeepChar c = true :=
    fun c hc => (hcl c hc).2.2.2
  have hfil : ("courses".toList ++ '/' :: (slug.toList ++
      '/' :: ("lesson".toList ++ '/' :: (ls.toList ++
        '/' :: ns.toList)))).filter urlKeepChar =
      "courses".toList ++ '/' :: (slug.toList ++
        '/' :: ("lesson".toList ++ '/' :: (ls.toList.filter urlKeepChar ++
          '/' :: ns.toList.filter urlKeepChar))) := by
    rw [filter_append_clean (by decide), List.filter_cons_of_pos (by decide),
      filter_append_clean hslugkeep, List.filter_cons_of_pos (by decide),
      filter_append_clean (by decide), List.filter_cons_of_pos (by decide),
      List.filter_append, List.filter_cons_of_pos (by decide)]
  rw [hfil]
  have hxs : ∀ c ∈ ('/' :: ("courses".toList ++ '/' :: (slug.toList ++
      '/' :: ("lesson".toList ++ ['/'])))), ¬c = '#' ∧ ¬c = '?' := by
    intro c hc
    simp only [List.mem_cons, List.mem_append] at hc
    rcases hc with rfl | hc | rfl | hc | rfl | hc | hc
    · exact ⟨by decide, by decide⟩
    · exact (by decide : ∀ x ∈ "courses".toList, ¬x = '#' ∧ ¬x = '?') c hc
    · exact ⟨by decide, by decide⟩
    · exact ⟨(hcl c hc).2.2.1, (hcl c hc).2.1⟩
    · exact ⟨by decide, by decide⟩
    · exact (by decide : ∀ x ∈ "lesson".toList, ¬x = '#' ∧ ¬x = '?') c hc
    · have hcc : c = '/' := by simpa using hc
      subst hcc
      exact ⟨by decide, by decide⟩
  have ha1 : '/' :: ("courses".toList ++ '/' :: (slug.toList ++
      '/' :: ("lesson".toList ++ '/' :: (ls.toList.filter urlKeepChar ++
        '/' :: ns.toList.filter urlKeepChar)))) =
      ('/' :: ("courses".toList ++ '/' :: (slug.toList ++
        '/' :: ("lesson".toList ++ ['/'])))) ++
      (ls.toList.filter urlKeepChar ++ '/' :: ns.toList.filter urlKeepChar) := by
    simp
  rw [ha1]
  rw [breakAtChar_append_clean
    (fun c hc => decide_eq_false (hxs c hc).1) _]
  rw [breakAtChar_append_clean
    (fun c hc => decide_eq_false (hxs c hc).2) _]
  have ha2 : ∀ t2 : List Char,
      ('/' :: ("courses".toList ++ '/' :: (slug.toList ++
        '/' :: ("lesson".toList ++ ['/'])))) ++ t2 =
      ('/' :: ("courses".toList ++ '/' :: (slug.toList ++
        '/' :: "lesson".toList))) ++ '/' :: t2 := by
    intro t2
    simp
  rw [ha2]
  obtain ⟨t3, hsp⟩ := splitParams_keeps_front
    ('/' :: ("courses".toList ++ '/' :: (slug.toList ++ '/' :: "lesson".toList)))
    ((breakAtChar (fun c => c = '?')
      ((breakAtChar (fun c => c = '#')
        (ls.toList.filter urlKeepChar ++
          '/' :: ns.toList.filter urlKeepChar)).1)).1)
  rw [hsp]
  have ha3 : ('/' :: ("courses".toList ++ '/' :: (slug.toList ++
      '/' :: "lesson".toList))) ++ '/' :: t3 =
      '/' :: ("courses".toList ++ '/' :: (slug.toList ++
        '/' :: ("lesson".toList ++ '/' :: t3))) := by
    simp
  rw [ha3]
  have hsplit : splitOnChar '/' ('/' :: ("courses".toList ++
      '/' :: (slug.toList ++ '/' :: ("lesson".toList ++ '/' :: t3)))) =
      [] :: "courses".toList :: slug.toList ::
        splitOnChar '/' ("lesson".toList ++ '/' :: t3) := by
    rw [splitOnChar_consSep,
      splitOnChar_append (by decide),
      splitOnChar_append (fun c hc => (hcl c hc).1)]
  have hne' : ¬slug = "" := by
    intro he
    rw [he] at hne
    exact hne rfl
  have htl3 : (String.mk ('/' :: ("courses".toList ++ '/' :: (slug.toList ++
      '/' :: ("lesson".toList ++ '/' :: t3))))).toList =
      '/' :: ("courses".toList ++ '/' :: (slug.toList ++
        '/' :: ("lesson".toList ++ '/' :: t3))) := rfl
  simp only [pathSlugOnly, pathParts, htl3, hsplit, List.map_cons,
    List.filter_cons]
  rw [if_neg (by decide : ¬(decide ((String.mk [] : String) ≠ "") = true))]
  rw [if_pos (by decide : decide ((String.mk "courses".toList : String) ≠ "") = true)]
  rw [show String.mk slug.toList = slug from rfl]
  rw [if_pos (decide_eq_true hne')]
  rfl

/-- C4 counterexample: with the empty course slug (the claim quantifies
over every slug), building a lesson URL and re-parsing it yields the
slug "lesson", not the empty slug that was used to build it. -/
theorem c4_roundtrip_counterexample :
    build_lesson_url "" ⟨none, .vnone, none, none⟩ =
      .ok (0, "Lesson 0",
        "https://learn.deeplearning.ai/courses//lesson/0/lesson-0") ∧
    get_course_slug
        "https://learn.deeplearning.ai/courses//lesson/0/lesson-0" =
      .ok "lesson" := by
  constructor
  · decide
  · decide

/-- C4 amended: for every course slug that is non-empty and contains
none of the characters that influence URL parsing (slash, question mark,
hash, tab, CR, LF) and every record, re-parsing the built viewable URL
with the export-path URL parser returns exactly the slug used to build
it; the lesson-slug and title segments are unconstrained. -/
theorem c4_roundtrip_amended (slug : String) (r : RawRecord)
    (hne : slug ≠ "")
    (hcl : ∀ c ∈ slug.toList,
      ¬c = '/' ∧ ¬c = '?' ∧ ¬c = '#' ∧ urlKeepChar c = true)
    {i : Int} {name url : String}
    (h : build_lesson_url slug r = .ok (i, name, url)) :
    get_course_slug url = .ok slug := by
  rcases hidx : recordIndex r with _ | j
  · unfold build_lesson_url at h
    rw [hidx] at h
    exact Except.noConfusion h
  · rw [build_lesson_url_eval hidx] at h
    injection h with h1
    injection h1 with h2 h3
    injection h3 with h4 h5
    rw [← h5]
    have hne' : slug.toList ≠ [] := by
      intro he
      exact hne (congrArg String.mk he)
    exact get_course_slug_platform slug _ _ hne' hcl

/-- C4 witness: the amended theorem applied at a concrete slug and
record, all hypotheses discharged by evaluation. -/
theorem c4_roundtrip_amended_witness :
    get_course_slug "https://learn.deeplearning.ai/courses/my-course/lesson/s7/a" =
      .ok "my-course" :=
  @c4_roundtrip_amended "my-course" ⟨some "video", .vnum 7, some "A", some "s7"⟩
    (by decide) (by decide) 7 "A"
    "https://learn.deeplearning.ai/courses/my-course/lesson/s7/a"
    (by decide)

end DlaiDownloader
